import Mathlib

/-
  Verification of the prefer-inline-type-parameters analysis engine
  (src/lib/prefer-inline-type-parameters.js).

  The syntax tree is modelled as a flat list of nodes.  Each node carries
  the fields the engine consults: its kind tag, a parent link (an index
  into the list), its source range, the declared name (id.name) for
  declarations, whether the declaration has type parameters, the
  referenced name for type references whose typeName is an Identifier,
  the parameter list for function nodes, the init link for variable
  declarators, and the inner child links typeAnnotation / body.
  Node 0 plays the role of the Program root (sourceCode.ast);
  in well-formed trees every parent index is smaller than the child
  index, mirroring a preorder layout of a real tree.  The source text
  is a list of characters; node ranges are half-open offsets into it.
-/

/-- Kind tags of the syntax-tree nodes the engine distinguishes by their
runtime type string.  All other node kinds behave identically for the
engine and are collapsed into the catch-all constructor. -/
inductive NType where
  | program
  | tsTypeAliasDeclaration
  | tsInterfaceDeclaration
  | tsTypeReference
  | tsTypeAnn
  | objectPattern
  | arrayPattern
  | identifier
  | functionDeclaration
  | functionExpression
  | arrowFunctionExpression
  | variableDeclarator
  | assignmentPattern
  | exportNamedDeclaration
  | exportDefaultDeclaration
  | other
deriving DecidableEq, Repr

/-- A syntax-tree node with exactly the fields the engine reads. -/
structure Node where
  typ : NType
  parent : Option Nat
  lo : Nat
  hi : Nat
  idName : String
  hasTypeParams : Bool
  typeNameIdent : Option String
  params : List Nat
  init : Option Nat
  typeAnn : Nat
  body : Nat
deriving DecidableEq, Repr

/-- Default node returned for out-of-range indices. -/
def dNode : Node := Node.mk NType.other none 0 0 "" false none [] none 0 0

/-- One analyzed file: its syntax tree plus the raw source text. -/
structure File where
  nodes : List Node
  text : List Char

/-- Number of nodes of the file. -/
def File.size (f : File) : Nat := f.nodes.length

/-- Node lookup by index; out-of-range indices yield the default node. -/
def File.node (f : File) (i : Nat) : Node := f.nodes.getD i dNode

/- ----------------------------------------------------------------
   Insertion-ordered association lists, modelling the JS Map objects
   (set updates in place, new keys are appended at the end).
   ---------------------------------------------------------------- -/

/-- Lookup in an insertion-ordered association list (Map.get). -/
def lookupA {α : Type} : List (String × α) → String → Option α
  | [], _ => none
  | (k, v) :: rest, key => if k = key then some v else lookupA rest key

/-- Update in an insertion-ordered association list (Map.set): an existing
key keeps its position, a new key is appended at the end. -/
def setA {α : Type} : List (String × α) → String → α → List (String × α)
  | [], key, v => [(key, v)]
  | (k, w) :: rest, key, v =>
      if k = key then (k, v) :: rest else (k, w) :: setA rest key v

/- ----------------------------------------------------------------
   The engine, translated handler by handler from the source.
   ---------------------------------------------------------------- -/

/-- The three maps accumulated during the traversal
(typeUsageCount, typeDefinitions, typeReferences). -/
structure RuleState where
  typeUsageCount : List (String × Nat)
  typeDefinitions : List (String × Nat)
  typeReferences : List (String × List Nat)

/-- The empty state the rule starts from. -/
def initState : RuleState := RuleState.mk [] [] []

/-- Handler shared by TSTypeAliasDeclaration and TSInterfaceDeclaration
(source lines 30-54): skip declarations with type parameters, otherwise
record the declaration under its name and zero-initialize its usage
count if the name has no entry yet. -/
def recordDecl (f : File) (s : RuleState) (i : Nat) : RuleState :=
  let n := f.node i
  if n.hasTypeParams then s
  else
    RuleState.mk
      (if (lookupA s.typeUsageCount n.idName).isSome then s.typeUsageCount
       else setA s.typeUsageCount n.idName 0)
      (setA s.typeDefinitions n.idName i)
      s.typeReferences

/-- Handler for TSTypeReference (source lines 56-67): when the typeName is
a plain Identifier, bump the usage count and append the node to the
reference list of that name. -/
def recordRef (f : File) (s : RuleState) (i : Nat) : RuleState :=
  let n := f.node i
  match n.typeNameIdent with
  | none => s
  | some nm =>
      RuleState.mk
        (setA s.typeUsageCount nm ((lookupA s.typeUsageCount nm).getD 0 + 1))
        s.typeDefinitions
        (setA s.typeReferences nm ((lookupA s.typeReferences nm).getD [] ++ [i]))

/-- Dispatch of the visitor on one node. -/
def visit (f : File) (s : RuleState) (i : Nat) : RuleState :=
  match (f.node i).typ with
  | NType.tsTypeAliasDeclaration => recordDecl f s i
  | NType.tsInterfaceDeclaration => recordDecl f s i
  | NType.tsTypeReference => recordRef f s i
  | _ => s

/-- State after visiting the first k nodes of the file in document order. -/
def traversePrefix (f : File) (k : Nat) : RuleState :=
  (List.range k).foldl (visit f) initState

/-- State after the full traversal. -/
def traverseAll (f : File) : RuleState := traversePrefix f f.size

/-- isExported (source lines 192-197): the declaration node is the
immediate child of an export clause. -/
def isExported (f : File) (i : Nat) : Bool :=
  match (f.node i).parent with
  | none => false
  | some p =>
      decide ((f.node p).typ = NType.exportNamedDeclaration ∨
              (f.node p).typ = NType.exportDefaultDeclaration)

/-- Function kinds recognized by isInFunctionParameter. -/
def isFunctionKind : NType → Bool
  | NType.functionDeclaration => true
  | NType.functionExpression => true
  | NType.arrowFunctionExpression => true
  | _ => false

/-- The inner ancestor loops of isInFunctionParameter (source lines
142-161 and 165-184; both loops have identical behavior): walk outward
from the given start; at the first function node decide by membership of
the annotated node in its parameter list; at a variable declarator whose
init is a function expression or arrow, decide by membership in the init
parameters; otherwise keep walking.  Returns none when the chain is
exhausted without a decision (the JS loop falls through).  The fuel
argument bounds the walk; in well-formed trees it never runs out. -/
def findFuncAncestor (f : File) (target : Nat) : Nat → Option Nat → Option Bool
  | _, none => none
  | 0, some _ => none
  | fuel + 1, some a =>
      if isFunctionKind (f.node a).typ then some (decide (target ∈ (f.node a).params))
      else if (f.node a).typ = NType.variableDeclarator then
        match (f.node a).init with
        | some ini =>
            if (f.node ini).typ = NType.functionExpression ∨
               (f.node ini).typ = NType.arrowFunctionExpression then
              some (decide (target ∈ (f.node ini).params))
            else findFuncAncestor f target fuel (f.node a).parent
        | none => findFuncAncestor f target fuel (f.node a).parent
      else findFuncAncestor f target fuel (f.node a).parent

/-- The outer loop of isInFunctionParameter (source lines 135-190): walk
up from the reference; at every TSTypeAnnotation node whose parent is a
destructuring pattern or a plain identifier, run the inner ancestor
search from the grandparent; a decision of the inner search is returned
as the overall answer, otherwise the outer walk continues upward. -/
def isInFuncParamFrom (f : File) : Nat → Option Nat → Bool
  | _, none => false
  | 0, some _ => false
  | fuel + 1, some i =>
      if (f.node i).typ = NType.tsTypeAnn then
        match (f.node i).parent with
        | some p =>
            if (f.node p).typ = NType.objectPattern ∨ (f.node p).typ = NType.arrayPattern then
              match findFuncAncestor f p fuel (f.node p).parent with
              | some b => b
              | none => isInFuncParamFrom f fuel (f.node i).parent
            else if (f.node p).typ = NType.identifier then
              match findFuncAncestor f p fuel (f.node p).parent with
              | some b => b
              | none => isInFuncParamFrom f fuel (f.node i).parent
            else isInFuncParamFrom f fuel (f.node i).parent
        | none => isInFuncParamFrom f fuel (f.node i).parent
      else isInFuncParamFrom f fuel (f.node i).parent

/-- isInFunctionParameter applied to a reference node. -/
def isInFunctionParameter (f : File) (i : Nat) : Bool :=
  isInFuncParamFrom f (f.size + 1) (some i)

/-- getTopLevelStatement (source lines 199-205): walk up until the parent
is the Program node (index 0) or there is no parent. -/
def getTopLevelStatement (f : File) : Nat → Nat → Nat
  | 0, i => i
  | fuel + 1, i =>
      match (f.node i).parent with
      | none => i
      | some p => if p = 0 then i else getTopLevelStatement f fuel p

/-- Character of the text at an offset, none when out of range. -/
def charAt : List Char → Nat → Option Char
  | [], _ => none
  | c :: _, 0 => some c
  | _ :: cs, n + 1 => charAt cs n

/-- Verbatim sliceText of the text over a half-open offset range
(sourceCode.getText on a node is range-based slicing). -/
def sliceText (text : List Char) (a b : Nat) : List Char :=
  (text.drop a).take (b - a)

/-- Text of a node, by range-based slicing. -/
def getText (f : File) (i : Nat) : List Char :=
  sliceText f.text (f.node i).lo (f.node i).hi

/-- getTypeBody (source lines 207-217): the right-hand type expression
for an alias, the member block for an interface, nothing otherwise. -/
def getTypeBody (f : File) (i : Nat) : Option (List Char) :=
  if (f.node i).typ = NType.tsTypeAliasDeclaration then
    some (getText f (f.node i).typeAnn)
  else if (f.node i).typ = NType.tsInterfaceDeclaration then
    some (getText f (f.node i).body)
  else none

/-- The endPos adjustment of the fix (source lines 110-119): extend the
deleted range past at most one trailing line terminator, handling a lone
line feed, a lone carriage return, and a carriage-return/line-feed pair. -/
def trimEnd (text : List Char) (p : Nat) : Nat :=
  match charAt text p with
  | some c =>
      if c = '\n' then p + 1
      else if c = '\r' then
        match charAt text (p + 1) with
        | some c2 => if c2 = '\n' then p + 2 else p + 1
        | none => p + 1
      else p
  | none => p

/-- One text edit: replace the half-open range by the replacement text.
A removal is an edit with empty replacement. -/
structure Edit where
  lo : Nat
  hi : Nat
  repl : List Char
deriving DecidableEq, Repr

/-- The fix function of the report (source lines 90-127): delete the
enclosing top-level statement of the declaration extended past at most
one trailing line terminator, and replace the inner type of the
annotation that is the immediate parent of the reference with the body
text of the declaration.  Returns none when the body cannot be extracted
(or is empty, which the source treats as falsy) or when the immediate
parent of the reference is not a TSTypeAnnotation node. -/
def computeFix (f : File) (defIdx refIdx : Nat) : Option (List Edit) :=
  let stmt := getTopLevelStatement f f.size defIdx
  match getTypeBody f defIdx with
  | none => none
  | some typeBody =>
      if typeBody = [] then none
      else
        match (f.node refIdx).parent with
        | none => none
        | some pr =>
            if (f.node pr).typ = NType.tsTypeAnn then
              some
                [Edit.mk (f.node stmt).lo (trimEnd f.text (f.node stmt).hi) [],
                 Edit.mk (f.node ((f.node pr).typeAnn)).lo
                   (f.node ((f.node pr).typeAnn)).hi typeBody]
            else none

/-- One diagnostic: the reported declaration node, the name carried in
the message data, and the fix edits when the fix function produced any. -/
structure Report where
  defIdx : Nat
  typeName : String
  fixes : Option (List Edit)
deriving DecidableEq, Repr

/-- The body of the Program:exit loop for one entry of typeUsageCount
(source lines 70-129): require a recorded declaration, usage count
exactly 1, a non-exported declaration, a reference list of length
exactly 1, and a reference sitting in a function parameter; then report. -/
def classify (f : File) (s : RuleState) (entry : String × Nat) : Option Report :=
  match lookupA s.typeDefinitions entry.fst with
  | none => none
  | some defIdx =>
      if entry.snd ≠ 1 then none
      else if isExported f defIdx then none
      else
        match lookupA s.typeReferences entry.fst with
        | none => none
        | some refs =>
            match refs with
            | [reference] =>
                if isInFunctionParameter f reference then
                  some (Report.mk defIdx entry.fst (computeFix f defIdx reference))
                else none
            | _ => none

/-- Program:exit over all entries of typeUsageCount in insertion order. -/
def programExit (f : File) (s : RuleState) : List Report :=
  s.typeUsageCount.filterMap (classify f s)

/-- The whole engine on one file: traversal followed by Program:exit. -/
def run (f : File) : List Report :=
  programExit f (traverseAll f)

/- ----------------------------------------------------------------
   Consumer-side application of fix edits, and spec-side notions used
   to state the claims.
   ---------------------------------------------------------------- -/

/-- Insert an edit into a list sorted by range start (ties by range
end), keeping stability. -/
def insertEdit (e : Edit) : List Edit → List Edit
  | [] => [e]
  | x :: xs =>
      if e.lo < x.lo ∨ (e.lo = x.lo ∧ e.hi ≤ x.hi) then e :: x :: xs
      else x :: insertEdit e xs

/-- Sort edits by range. -/
def sortEdits : List Edit → List Edit
  | [] => []
  | e :: es => insertEdit e (sortEdits es)

/-- Single pass over the original text applying already-sorted edits:
copy up to each range start, emit the replacement, continue after the
range end. -/
def applyEditsFrom (text : List Char) : Nat → List Edit → List Char
  | pos, [] => text.drop pos
  | pos, e :: rest =>
      ((text.drop pos).take (e.lo - pos)) ++ e.repl ++ applyEditsFrom text e.hi rest

/-- How a consumer applies fix edits: sort by range, then splice in one
pass over the original text. -/
def applyEdits (text : List Char) (es : List Edit) : List Char :=
  applyEditsFrom text 0 (sortEdits es)

/-- Modelled from the spec: the round-trip text the claim describes —
the original text with the span from dLo to dHi removed and the span
from rLo to rHi replaced by the body, both spans given in original
coordinates (meaningful when the spans are disjoint). -/
def specFixedText (text : List Char) (dLo dHi rLo rHi : Nat) (body : List Char) : List Char :=
  if dHi ≤ rLo then
    text.take dLo ++ sliceText text dHi rLo ++ body ++ text.drop rHi
  else
    text.take rLo ++ body ++ sliceText text rHi dLo ++ text.drop dHi

/-- Two half-open ranges overlap when some offset lies in both. -/
def rangesOverlap (l1 h1 l2 h2 : Nat) : Bool :=
  decide (max l1 l2 < min h1 h2)

/-- Whether node i is a counted reference to the name: a TSTypeReference
whose typeName is an Identifier bearing that name. -/
def isRefB (f : File) (nm : String) (i : Nat) : Bool :=
  decide ((f.node i).typ = NType.tsTypeReference ∧
          (f.node i).typeNameIdent = some nm)

/-- Whether node i is a recordable declaration of the name: an alias or
interface declaration without type parameters bearing that name. -/
def isDeclB (f : File) (nm : String) (i : Nat) : Bool :=
  decide (((f.node i).typ = NType.tsTypeAliasDeclaration ∨
           (f.node i).typ = NType.tsInterfaceDeclaration) ∧
          (f.node i).hasTypeParams = false ∧
          (f.node i).idName = nm)

/-- Reference occurrences of a name, in document order. -/
def refOccurrences (f : File) (nm : String) : List Nat :=
  (List.range f.size).filter (isRefB f nm)

/-- Non-generic declaration occurrences of a name, in document order. -/
def declOccurrences (f : File) (nm : String) : List Nat :=
  (List.range f.size).filter (isDeclB f nm)

/-- The guard of the fix on the immediate parent of the reference: true
when the parent is missing or is not a TSTypeAnnotation node. -/
def refParentNotAnn (f : File) (r : Nat) : Bool :=
  match (f.node r).parent with
  | none => true
  | some pr => decide ((f.node pr).typ ≠ NType.tsTypeAnn)

/-- Whether node b is a type annotation whose annotated node is a
destructuring pattern or a plain identifier: the configurations at which
the context walk runs its inner ancestor search and, if that search
reaches a decider, returns its verdict for the whole walk. -/
def annOnPattern (f : File) (b : Nat) : Bool :=
  decide ((f.node b).typ = NType.tsTypeAnn) &&
    (match (f.node b).parent with
     | none => false
     | some q =>
         decide ((f.node q).typ = NType.objectPattern ∨
                 (f.node q).typ = NType.arrayPattern ∨
                 (f.node q).typ = NType.identifier))

/-- The keys of an association list. -/
def keysOf {α : Type} (l : List (String × α)) : List String :=
  l.map Prod.fst

/-- The ancestor chain starting at a node (the node itself included),
following parent links while fuel lasts. -/
def chainFrom (f : File) : Nat → Option Nat → List Nat
  | _, none => []
  | 0, some _ => []
  | fuel + 1, some i => i :: chainFrom f fuel (f.node i).parent

/-- The ancestor chain of a node, with the same fuel the engine uses. -/
def ancestors (f : File) (i : Nat) : List Nat :=
  chainFrom f (f.size + 1) (some i)

/-- Parent links go to strictly smaller indices (checked per node). -/
def parentLt (n : Node) (i : Nat) : Bool :=
  match n.parent with
  | none => true
  | some p => decide (p < i)

/-- Well-formed tree: every parent index is smaller than its child
index, so ancestor chains terminate. -/
def Wf (f : File) : Prop :=
  ∀ i, i < f.size → parentLt (f.node i) i = true

/-- Range sanity of one node: the range is ordered and lies inside the
range of the parent. -/
def rangeOk (f : File) (i : Nat) : Bool :=
  decide ((f.node i).lo ≤ (f.node i).hi) &&
    (match (f.node i).parent with
     | none => true
     | some p =>
         decide ((f.node p).lo ≤ (f.node i).lo ∧ (f.node i).hi ≤ (f.node p).hi))

/-- Range-well-formed tree: every node range is ordered and nested in
the parent range. -/
def RangeWf (f : File) : Prop :=
  ∀ i, i < f.size → rangeOk f i = true

/-- Wf is decidable, so concrete files can be checked by evaluation. -/
instance wfDecidable (f : File) : Decidable (Wf f) :=
  inferInstanceAs (Decidable (∀ i, i < f.size → parentLt (f.node i) i = true))

/-- RangeWf is decidable, so concrete files can be checked by evaluation. -/
instance rangeWfDecidable (f : File) : Decidable (RangeWf f) :=
  inferInstanceAs (Decidable (∀ i, i < f.size → rangeOk f i = true))

/-- The usage count recorded for a name (a missing entry counts as 0). -/
def countOf (s : RuleState) (nm : String) : Nat :=
  (lookupA s.typeUsageCount nm).getD 0

/-- The reference list recorded for a name (a missing entry counts as
the empty list). -/
def refsOf (s : RuleState) (nm : String) : List Nat :=
  (lookupA s.typeReferences nm).getD []

/-- The diagnostics of a report list that carry a given name. -/
def reportsFor (rs : List Report) (nm : String) : List Report :=
  rs.filter (fun rpt => decide (rpt.typeName = nm))

/-- The diagnostics of a report list that point at a given declaration
node. -/
def reportsForDecl (rs : List Report) (d : Nat) : List Report :=
  rs.filter (fun rpt => decide (rpt.defIdx = d))

/- ----------------------------------------------------------------
   Concrete example files (used by witnesses and counterexamples).
   ---------------------------------------------------------------- -/

/-- Plain node carrying only kind, parent and range. -/
def mkNode (t : NType) (par : Option Nat) (lo hi : Nat) : Node :=
  Node.mk t par lo hi "" false none [] none 0 0

/-- Non-generic type declaration node with its name and body child. -/
def mkDecl (t : NType) (par : Option Nat) (lo hi : Nat) (nm : String) (bodyIdx : Nat) : Node :=
  Node.mk t par lo hi nm false none [] none bodyIdx bodyIdx

/-- Generic type declaration node (has type parameters). -/
def mkDeclGen (t : NType) (par : Option Nat) (lo hi : Nat) (nm : String) (bodyIdx : Nat) : Node :=
  Node.mk t par lo hi nm true none [] none bodyIdx bodyIdx

/-- Type reference node whose typeName is an Identifier with the name. -/
def mkRef (par : Option Nat) (lo hi : Nat) (nm : String) : Node :=
  Node.mk NType.tsTypeReference par lo hi "" false (some nm) [] none 0 0

/-- Type annotation node with its inner type child. -/
def mkAnn (par : Option Nat) (lo hi : Nat) (inner : Nat) : Node :=
  Node.mk NType.tsTypeAnn par lo hi "" false none [] none inner 0

/-- Function-like node with its parameter list. -/
def mkFun (t : NType) (par : Option Nat) (lo hi : Nat) (ps : List Nat) : Node :=
  Node.mk t par lo hi "" false none ps none 0 0

/-- Variable declarator node with its init child. -/
def mkVarDeclarator (par : Option Nat) (lo hi : Nat) (ini : Option Nat) : Node :=
  Node.mk NType.variableDeclarator par lo hi "" false none [] ini 0 0

/-- A single-use alias inlined into an arrow parameter:
the standard positive case. -/
def exF2 : File :=
  File.mk
    [mkNode NType.program none 0 38,
     mkDecl NType.tsTypeAliasDeclaration (some 0) 0 15 "P" 2,
     mkNode NType.other (some 1) 9 15,
     mkNode NType.other (some 0) 16 37,
     mkVarDeclarator (some 3) 22 37 (some 6),
     mkNode NType.identifier (some 4) 22 23,
     mkFun NType.arrowFunctionExpression (some 4) 26 37 [7],
     mkNode NType.identifier (some 6) 27 31,
     mkAnn (some 7) 28 31 9,
     mkRef (some 8) 30 31 "P",
     mkNode NType.other (some 6) 36 37]
    ("type P = number\nconst f = (x: P) => x\n".toList)

/-- A declaration nested inside the very statement that contains its
single reference: the arrow body declares the alias used by the arrow
parameter. -/
def exF3 : File :=
  File.mk
    [mkNode NType.program none 0 50,
     mkNode NType.other (some 0) 0 49,
     mkVarDeclarator (some 1) 6 49 (some 4),
     mkNode NType.identifier (some 2) 6 7,
     mkFun NType.arrowFunctionExpression (some 2) 10 49 [5],
     mkNode NType.identifier (some 4) 11 15,
     mkAnn (some 5) 12 15 7,
     mkRef (some 6) 14 15 "P",
     mkNode NType.other (some 4) 20 49,
     mkDecl NType.tsTypeAliasDeclaration (some 8) 22 38 "P" 10,
     mkNode NType.other (some 9) 31 37,
     mkNode NType.other (some 8) 39 48]
    ("const f = (x: P) => \x7b type P = number; return x \x7d\n".toList)

/-- A single reference nested inside a generic wrapper within the
parameter annotation: reported, but not rewritable. -/
def exF4 : File :=
  File.mk
    [mkNode NType.program none 0 41,
     mkDecl NType.tsTypeAliasDeclaration (some 0) 0 15 "P" 2,
     mkNode NType.other (some 1) 9 15,
     mkNode NType.other (some 0) 16 40,
     mkVarDeclarator (some 3) 22 40 (some 6),
     mkNode NType.identifier (some 4) 22 23,
     mkFun NType.arrowFunctionExpression (some 4) 26 40 [7],
     mkNode NType.identifier (some 6) 27 34,
     mkAnn (some 7) 28 34 9,
     mkRef (some 8) 30 34 "W",
     mkNode NType.other (some 9) 31 34,
     mkRef (some 10) 32 33 "P",
     mkNode NType.other (some 6) 39 40]
    ("type P = number\nconst g = (x: W<P>) => x\n".toList)

/-- A declaration referenced twice, in two parameter annotations. -/
def exF5 : File :=
  File.mk
    [mkNode NType.program none 0 60,
     mkDecl NType.tsTypeAliasDeclaration (some 0) 0 15 "U" 2,
     mkNode NType.other (some 1) 9 15,
     mkNode NType.other (some 0) 16 37,
     mkVarDeclarator (some 3) 22 37 (some 6),
     mkNode NType.identifier (some 4) 22 23,
     mkFun NType.arrowFunctionExpression (some 4) 26 37 [7],
     mkNode NType.identifier (some 6) 27 31,
     mkAnn (some 7) 28 31 9,
     mkRef (some 8) 30 31 "U",
     mkNode NType.other (some 6) 36 37,
     mkNode NType.other (some 0) 38 59,
     mkVarDeclarator (some 11) 44 59 (some 14),
     mkNode NType.identifier (some 12) 44 45,
     mkFun NType.arrowFunctionExpression (some 12) 48 59 [15],
     mkNode NType.identifier (some 14) 49 53,
     mkAnn (some 15) 50 53 17,
     mkRef (some 16) 52 53 "U",
     mkNode NType.other (some 14) 58 59]
    ("type U = number\nconst a = (x: U) => x\nconst b = (y: U) => y\n".toList)

/-- A declaration whose single reference sits in the type annotation of
a variable declaration, not of a function parameter. -/
def exF6 : File :=
  File.mk
    [mkNode NType.program none 0 31,
     mkDecl NType.tsTypeAliasDeclaration (some 0) 0 15 "C" 2,
     mkNode NType.other (some 1) 9 15,
     mkNode NType.other (some 0) 16 30,
     mkVarDeclarator (some 3) 22 30 (some 8),
     mkNode NType.identifier (some 4) 22 26,
     mkAnn (some 5) 23 26 7,
     mkRef (some 6) 25 26 "C",
     mkNode NType.other (some 4) 29 30]
    ("type C = number\nconst c: C = 1\n".toList)

/-- An exported declaration with a single parameter-annotation use. -/
def exF7 : File :=
  File.mk
    [mkNode NType.program none 0 45,
     mkNode NType.exportNamedDeclaration (some 0) 0 22,
     mkDecl NType.tsTypeAliasDeclaration (some 1) 7 22 "E" 3,
     mkNode NType.other (some 2) 16 22,
     mkNode NType.other (some 0) 23 44,
     mkVarDeclarator (some 4) 29 44 (some 7),
     mkNode NType.identifier (some 5) 29 30,
     mkFun NType.arrowFunctionExpression (some 5) 33 44 [8],
     mkNode NType.identifier (some 7) 34 38,
     mkAnn (some 8) 35 38 10,
     mkRef (some 9) 37 38 "E",
     mkNode NType.other (some 7) 43 44]
    ("export type E = number\nconst h = (x: E) => x\n".toList)

/-- A generic declaration with a single parameter-annotation use of an
instantiation of it. -/
def exF8 : File :=
  File.mk
    [mkNode NType.program none 0 44,
     mkDeclGen NType.tsTypeAliasDeclaration (some 0) 0 13 "G" 2,
     mkRef (some 1) 12 13 "T",
     mkNode NType.other (some 0) 14 43,
     mkVarDeclarator (some 3) 20 43 (some 6),
     mkNode NType.identifier (some 4) 20 21,
     mkFun NType.arrowFunctionExpression (some 4) 24 43 [7],
     mkNode NType.identifier (some 6) 25 37,
     mkAnn (some 7) 26 37 9,
     mkRef (some 8) 28 37 "G",
     mkNode NType.other (some 9) 29 37]
    ("type G<T> = T\nconst u = (x: G<string>) => x\n".toList)

/-- A destructured parameter with a default value: the annotated object
pattern is wrapped in an assignment pattern, and the assignment pattern,
not the object pattern, is the listed parameter of the arrow. -/
def exF10 : File :=
  File.mk
    [mkNode NType.program none 0 46,
     mkDecl NType.tsTypeAliasDeclaration (some 0) 0 15 "M" 2,
     mkNode NType.other (some 1) 9 15,
     mkNode NType.other (some 0) 16 45,
     mkVarDeclarator (some 3) 22 45 (some 6),
     mkNode NType.identifier (some 4) 22 23,
     mkFun NType.arrowFunctionExpression (some 4) 26 45 [7],
     mkNode NType.assignmentPattern (some 6) 27 39,
     mkNode NType.objectPattern (some 7) 27 35,
     mkAnn (some 8) 32 35 10,
     mkRef (some 9) 34 35 "M",
     mkNode NType.identifier (some 7) 38 39,
     mkNode NType.other (some 6) 44 45]
    ("type M = number\nconst u = (\x7b m \x7d: M = d) => m\n".toList)

/-- A single-use declaration whose reference sits inside the parameter
annotation of an inner function type that is itself the annotation of a
real arrow parameter: the walk decides at the inner annotation (whose
annotated identifier is not listed in the arrow parameters) and returns
false, so nothing is reported. -/
def exF1c : File :=
  File.mk
    [mkNode NType.program none 0 51,
     mkDecl NType.tsTypeAliasDeclaration (some 0) 0 15 "Q" 2,
     mkNode NType.other (some 1) 9 15,
     mkNode NType.other (some 0) 16 50,
     mkVarDeclarator (some 3) 22 50 (some 6),
     mkNode NType.identifier (some 4) 22 23,
     mkFun NType.arrowFunctionExpression (some 4) 26 50 [7],
     mkNode NType.identifier (some 6) 27 44,
     mkAnn (some 7) 28 44 9,
     mkNode NType.other (some 8) 30 44,
     mkNode NType.identifier (some 9) 31 35,
     mkAnn (some 10) 32 35 12,
     mkRef (some 11) 34 35 "Q",
     mkAnn (some 9) 37 44 14,
     mkNode NType.other (some 13) 40 44,
     mkNode NType.other (some 6) 49 50]
    ("type Q = number\nconst f = (x: (y: Q) => void) => 0\n".toList)

/- ----------------------------------------------------------------
   Lemmas about the association lists.
   ---------------------------------------------------------------- -/

theorem lookupA_setA_self {α : Type} (l : List (String × α)) (k : String) (v : α) :
    lookupA (setA l k v) k = some v := by
  induction l with
  | nil => simp [setA, lookupA]
  | cons hd t ih =>
      obtain ⟨k1, v1⟩ := hd
      by_cases hk : k1 = k
      · simp [setA, hk, lookupA]
      · simp [setA, hk, lookupA, ih]

theorem lookupA_setA_ne {α : Type} (l : List (String × α)) (k k' : String) (v : α)
    (h : k' ≠ k) : lookupA (setA l k v) k' = lookupA l k' := by
  have h' : k ≠ k' := Ne.symm h
  induction l with
  | nil => simp [setA, lookupA, h']
  | cons hd t ih =>
      obtain ⟨k1, v1⟩ := hd
      by_cases hk : k1 = k
      · subst hk
        simp [setA, lookupA, h']
      · by_cases hk2 : k1 = k' <;> simp [setA, hk, lookupA, hk2, ih, h]

theorem mem_of_lookupA {α : Type} {l : List (String × α)} {k : String} {v : α}
    (h : lookupA l k = some v) : (k, v) ∈ l := by
  induction l with
  | nil => simp [lookupA] at h
  | cons hd t ih =>
      obtain ⟨k1, v1⟩ := hd
      by_cases hk : k1 = k
      · subst hk
        simp [lookupA] at h
        subst h
        exact List.mem_cons_self _ _
      · simp [lookupA, hk] at h
        exact List.mem_cons_of_mem _ (ih h)

theorem lookupA_eq_none_iff {α : Type} (l : List (String × α)) (k : String) :
    lookupA l k = none ↔ k ∉ keysOf l := by
  induction l with
  | nil => simp [lookupA, keysOf]
  | cons hd t ih =>
      obtain ⟨k1, v1⟩ := hd
      by_cases hk : k1 = k
      · subst hk
        simp [lookupA, keysOf]
      · simp only [lookupA, keysOf, List.map_cons, List.mem_cons, hk, if_false]
        rw [show keysOf t = List.map Prod.fst t from rfl] at ih
        rw [ih]
        constructor
        · intro hn hor
          rcases hor with h1 | h2
          · exact hk h1.symm
          · exact hn h2
        · intro hn
          exact fun hm => hn (Or.inr hm)

theorem lookupA_of_mem_nodup {α : Type} {l : List (String × α)} {k : String} {v : α}
    (hnd : (keysOf l).Nodup) (hm : (k, v) ∈ l) : lookupA l k = some v := by
  induction l with
  | nil => simp at hm
  | cons hd t ih =>
      obtain ⟨k1, v1⟩ := hd
      have hnd' := List.nodup_cons.mp (show (k1 :: keysOf t).Nodup from hnd)
      rcases List.mem_cons.mp hm with h1 | h2
      · injection h1 with h1a h1b
        subst h1a
        subst h1b
        simp [lookupA]
      · have hk : k1 ≠ k := by
          intro he
          subst he
          exact hnd'.1 (by
            simpa [keysOf] using List.mem_map_of_mem Prod.fst h2)
        simp only [lookupA, hk, if_false]
        exact ih hnd'.2 h2

theorem mem_keysOf_setA {α : Type} (l : List (String × α)) (k : String) (v : α)
    (x : String) : x ∈ keysOf (setA l k v) ↔ x ∈ keysOf l ∨ x = k := by
  induction l with
  | nil => simp [setA, keysOf]
  | cons hd t ih =>
      obtain ⟨k1, v1⟩ := hd
      by_cases hk : k1 = k
      · subst hk
        simp only [setA, if_pos rfl]
        show x ∈ k1 :: keysOf t ↔ x ∈ k1 :: keysOf t ∨ x = k1
        constructor
        · exact Or.inl
        · intro hor
          rcases hor with h1 | h2
          · exact h1
          · subst h2
            exact List.mem_cons_self _ _
      · simp only [setA, if_neg hk]
        show x ∈ k1 :: keysOf (setA t k v) ↔ x ∈ k1 :: keysOf t ∨ x = k
        simp only [List.mem_cons, ih]
        tauto

theorem nodup_keysOf_setA {α : Type} (l : List (String × α)) (k : String) (v : α)
    (hnd : (keysOf l).Nodup) : (keysOf (setA l k v)).Nodup := by
  induction l with
  | nil => simp [setA, keysOf]
  | cons hd t ih =>
      obtain ⟨k1, v1⟩ := hd
      have hnd' := List.nodup_cons.mp (show (k1 :: keysOf t).Nodup from hnd)
      by_cases hk : k1 = k
      · subst hk
        simpa only [setA, if_pos rfl] using hnd
      · simp only [setA, if_neg hk]
        show (k1 :: keysOf (setA t k v)).Nodup
        refine List.nodup_cons.mpr ⟨?_, ih hnd'.2⟩
        rw [mem_keysOf_setA]
        intro hor
        rcases hor with h1 | h2
        · exact hnd'.1 h1
        · exact hk h2

/- ----------------------------------------------------------------
   How one visit step changes the three maps.
   ---------------------------------------------------------------- -/

theorem countOf_visit (f : File) (s : RuleState) (i : Nat) (nm : String) :
    countOf (visit f s i) nm = countOf s nm + (if isRefB f nm i then 1 else 0) := by
  unfold visit countOf
  cases htyp : (f.node i).typ <;>
    simp only [isRefB, htyp, recordDecl, recordRef] <;>
    try simp
  case tsTypeAliasDeclaration =>
    by_cases hgen : (f.node i).hasTypeParams
    · simp [hgen]
    · simp only [hgen, if_false, Bool.false_eq_true]
      by_cases hnm : (f.node i).idName = nm
      · subst hnm
        by_cases hs : (lookupA s.typeUsageCount (f.node i).idName).isSome
        · simp [hs]
        · simp [hs, lookupA_setA_self]
          rw [Option.not_isSome_iff_eq_none] at hs
          simp [hs]
      · by_cases hs : (lookupA s.typeUsageCount (f.node i).idName).isSome
        · simp [hs]
        · simp [hs, lookupA_setA_ne _ _ _ _ (fun he => hnm he.symm)]
  case tsInterfaceDeclaration =>
    by_cases hgen : (f.node i).hasTypeParams
    · simp [hgen]
    · simp only [hgen, if_false, Bool.false_eq_true]
      by_cases hnm : (f.node i).idName = nm
      · subst hnm
        by_cases hs : (lookupA s.typeUsageCount (f.node i).idName).isSome
        · simp [hs]
        · simp [hs, lookupA_setA_self]
          rw [Option.not_isSome_iff_eq_none] at hs
          simp [hs]
      · by_cases hs : (lookupA s.typeUsageCount (f.node i).idName).isSome
        · simp [hs]
        · simp [hs, lookupA_setA_ne _ _ _ _ (fun he => hnm he.symm)]
  case tsTypeReference =>
    cases hni : (f.node i).typeNameIdent with
    | none => simp
    | some nm' =>
        by_cases hnm : nm' = nm
        · subst hnm
          simp [lookupA_setA_self]
        · simp [lookupA_setA_ne _ _ _ _ (fun he => hnm he.symm), hnm]

theorem refsOf_visit (f : File) (s : RuleState) (i : Nat) (nm : String) :
    refsOf (visit f s i) nm = refsOf s nm ++ (if isRefB f nm i then [i] else []) := by
  unfold visit refsOf
  cases htyp : (f.node i).typ <;>
    simp only [isRefB, htyp, recordDecl, recordRef] <;>
    try simp
  case tsTypeAliasDeclaration =>
    by_cases hgen : (f.node i).hasTypeParams <;> simp [hgen]
  case tsInterfaceDeclaration =>
    by_cases hgen : (f.node i).hasTypeParams <;> simp [hgen]
  case tsTypeReference =>
    cases hni : (f.node i).typeNameIdent with
    | none => simp
    | some nm' =>
        by_cases hnm : nm' = nm
        · subst hnm
          simp [lookupA_setA_self]
        · simp [lookupA_setA_ne _ _ _ _ (fun he => hnm he.symm), hnm]

theorem lookupDefs_visit (f : File) (s : RuleState) (i : Nat) (nm : String) :
    lookupA (visit f s i).typeDefinitions nm =
      if isDeclB f nm i then some i else lookupA s.typeDefinitions nm := by
  unfold visit
  cases htyp : (f.node i).typ <;>
    simp only [isDeclB, htyp, recordDecl, recordRef] <;>
    try simp
  case tsTypeAliasDeclaration =>
    by_cases hgen : (f.node i).hasTypeParams
    · simp [hgen]
    · by_cases hnm : (f.node i).idName = nm
      · subst hnm
        simp [hgen, lookupA_setA_self]
      · simp [hgen, hnm, lookupA_setA_ne _ _ _ _ (fun he => hnm he.symm)]
  case tsInterfaceDeclaration =>
    by_cases hgen : (f.node i).hasTypeParams
    · simp [hgen]
    · by_cases hnm : (f.node i).idName = nm
      · subst hnm
        simp [hgen, lookupA_setA_self]
      · simp [hgen, hnm, lookupA_setA_ne _ _ _ _ (fun he => hnm he.symm)]
  case tsTypeReference =>
    cases hni : (f.node i).typeNameIdent <;> simp

theorem countKey_visit (f : File) (s : RuleState) (i : Nat) (nm : String) :
    (lookupA (visit f s i).typeUsageCount nm).isSome =
      ((lookupA s.typeUsageCount nm).isSome || isDeclB f nm i || isRefB f nm i) := by
  unfold visit
  cases htyp : (f.node i).typ <;>
    simp only [isDeclB, isRefB, htyp, recordDecl, recordRef] <;>
    try simp
  case tsTypeAliasDeclaration =>
    by_cases hgen : (f.node i).hasTypeParams
    · simp [hgen]
    · by_cases hnm : (f.node i).idName = nm
      · subst hnm
        by_cases hs : (lookupA s.typeUsageCount (f.node i).idName).isSome
        · simp [hgen, hs]
        · simp [hgen, hs, lookupA_setA_self]
      · by_cases hs : (lookupA s.typeUsageCount (f.node i).idName).isSome <;>
          simp [hgen, hs, hnm, lookupA_setA_ne _ _ _ _ (fun he => hnm he.symm)]
  case tsInterfaceDeclaration =>
    by_cases hgen : (f.node i).hasTypeParams
    · simp [hgen]
    · by_cases hnm : (f.node i).idName = nm
      · subst hnm
        by_cases hs : (lookupA s.typeUsageCount (f.node i).idName).isSome
        · simp [hgen, hs]
        · simp [hgen, hs, lookupA_setA_self]
      · by_cases hs : (lookupA s.typeUsageCount (f.node i).idName).isSome <;>
          simp [hgen, hs, hnm, lookupA_setA_ne _ _ _ _ (fun he => hnm he.symm)]
  case tsTypeReference =>
    cases hni : (f.node i).typeNameIdent with
    | none => simp
    | some nm' =>
        by_cases hnm : nm' = nm
        · subst hnm
          simp [lookupA_setA_self]
        · simp [hnm, lookupA_setA_ne _ _ _ _ (fun he => hnm he.symm)]

theorem refsKey_visit (f : File) (s : RuleState) (i : Nat) (nm : String) :
    (lookupA (visit f s i).typeReferences nm).isSome =
      ((lookupA s.typeReferences nm).isSome || isRefB f nm i) := by
  unfold visit
  cases htyp : (f.node i).typ <;>
    simp only [isRefB, htyp, recordDecl, recordRef] <;>
    try simp
  case tsTypeAliasDeclaration =>
    by_cases hgen : (f.node i).hasTypeParams <;> simp [hgen]
  case tsInterfaceDeclaration =>
    by_cases hgen : (f.node i).hasTypeParams <;> simp [hgen]
  case tsTypeReference =>
    cases hni : (f.node i).typeNameIdent with
    | none => simp
    | some nm' =>
        by_cases hnm : nm' = nm
        · subst hnm
          simp [lookupA_setA_self]
        · simp [hnm, lookupA_setA_ne _ _ _ _ (fun he => hnm he.symm)]

theorem nodupCount_visit (f : File) (s : RuleState) (i : Nat)
    (hnd : (keysOf s.typeUsageCount).Nodup) :
    (keysOf (visit f s i).typeUsageCount).Nodup := by
  unfold visit
  cases htyp : (f.node i).typ <;>
    simp only [recordDecl, recordRef] <;>
    try exact hnd
  case tsTypeAliasDeclaration =>
    by_cases hgen : (f.node i).hasTypeParams
    · simpa [hgen] using hnd
    · by_cases hs : (lookupA s.typeUsageCount (f.node i).idName).isSome <;>
        simp [hgen, hs] <;>
        first
          | exact hnd
          | exact nodup_keysOf_setA _ _ _ hnd
  case tsInterfaceDeclaration =>
    by_cases hgen : (f.node i).hasTypeParams
    · simpa [hgen] using hnd
    · by_cases hs : (lookupA s.typeUsageCount (f.node i).idName).isSome <;>
        simp [hgen, hs] <;>
        first
          | exact hnd
          | exact nodup_keysOf_setA _ _ _ hnd
  case tsTypeReference =>
    cases hni : (f.node i).typeNameIdent with
    | none => exact hnd
    | some nm' => exact nodup_keysOf_setA _ _ _ hnd

/- ----------------------------------------------------------------
   How a whole fold over a list of node indices changes the maps.
   ---------------------------------------------------------------- -/

theorem countOf_foldl (f : File) (L : List Nat) :
    ∀ s nm, countOf (L.foldl (visit f) s) nm =
      countOf s nm + (L.filter (isRefB f nm)).length := by
  induction L with
  | nil => intro s nm; simp
  | cons i L ih =>
      intro s nm
      rw [List.foldl_cons, ih, countOf_visit, List.filter_cons]
      by_cases hb : isRefB f nm i
      · simp [hb]
        omega
      · simp [hb]

theorem refsOf_foldl (f : File) (L : List Nat) :
    ∀ s nm, refsOf (L.foldl (visit f) s) nm =
      refsOf s nm ++ L.filter (isRefB f nm) := by
  induction L with
  | nil => intro s nm; simp
  | cons i L ih =>
      intro s nm
      rw [List.foldl_cons, ih, refsOf_visit, List.filter_cons]
      by_cases hb : isRefB f nm i <;> simp [hb]

theorem lookupDefs_foldl (f : File) (L : List Nat) :
    ∀ s nm, lookupA (L.foldl (visit f) s).typeDefinitions nm =
      (L.filter (isDeclB f nm)).foldl (fun _ i => some i) (lookupA s.typeDefinitions nm) := by
  induction L with
  | nil => intro s nm; simp
  | cons i L ih =>
      intro s nm
      rw [List.foldl_cons, ih, lookupDefs_visit, List.filter_cons]
      by_cases hb : isDeclB f nm i <;> simp [hb]

theorem countKey_foldl (f : File) (L : List Nat) :
    ∀ s nm, (lookupA (L.foldl (visit f) s).typeUsageCount nm).isSome =
      ((lookupA s.typeUsageCount nm).isSome ||
        !(L.filter (fun i => isDeclB f nm i || isRefB f nm i)).isEmpty) := by
  induction L with
  | nil => intro s nm; simp
  | cons i L ih =>
      intro s nm
      rw [List.foldl_cons, ih, countKey_visit, List.filter_cons]
      by_cases hd : isDeclB f nm i <;> by_cases hr : isRefB f nm i <;>
        simp [hd, hr]

theorem refsKey_foldl (f : File) (L : List Nat) :
    ∀ s nm, (lookupA (L.foldl (visit f) s).typeReferences nm).isSome =
      ((lookupA s.typeReferences nm).isSome || !(L.filter (isRefB f nm)).isEmpty) := by
  induction L with
  | nil => intro s nm; simp
  | cons i L ih =>
      intro s nm
      rw [List.foldl_cons, ih, refsKey_visit, List.filter_cons]
      by_cases hr : isRefB f nm i <;> simp [hr]

theorem nodupCount_foldl (f : File) (L : List Nat) :
    ∀ s, (keysOf s.typeUsageCount).Nodup →
      (keysOf ((L.foldl (visit f) s)).typeUsageCount).Nodup := by
  induction L with
  | nil => intro s h; simpa using h
  | cons i L ih =>
      intro s h
      rw [List.foldl_cons]
      exact ih _ (nodupCount_visit f s i h)

/- ----------------------------------------------------------------
   The state after the full traversal, in terms of the occurrence
   lists of the file.
   ---------------------------------------------------------------- -/

theorem countOf_traverse (f : File) (nm : String) :
    countOf (traverseAll f) nm = (refOccurrences f nm).length := by
  unfold traverseAll traversePrefix refOccurrences
  rw [countOf_foldl]
  simp [countOf, initState, lookupA]

theorem refsOf_traverse (f : File) (nm : String) :
    refsOf (traverseAll f) nm = refOccurrences f nm := by
  unfold traverseAll traversePrefix refOccurrences
  rw [refsOf_foldl]
  simp [refsOf, initState, lookupA]

theorem lookupRefs_traverse (f : File) (nm : String) :
    lookupA (traverseAll f).typeReferences nm =
      if refOccurrences f nm = [] then none else some (refOccurrences f nm) := by
  have hkey : (lookupA (traverseAll f).typeReferences nm).isSome =
      !(refOccurrences f nm).isEmpty := by
    unfold traverseAll traversePrefix refOccurrences
    rw [refsKey_foldl]
    simp [initState, lookupA]
  have hval := refsOf_traverse f nm
  by_cases hne : refOccurrences f nm = []
  · rw [if_pos hne]
    rw [hne] at hkey
    simp at hkey
    exact Option.not_isSome_iff_eq_none.mp (by simp [hkey])
  · rw [if_neg hne]
    rw [show (refOccurrences f nm).isEmpty = false from by
      cases hocc : refOccurrences f nm with
      | nil => exact absurd hocc hne
      | cons a t => simp] at hkey
    simp at hkey
    rcases Option.isSome_iff_exists.mp hkey with ⟨l, hl⟩
    rw [hl]
    unfold refsOf at hval
    rw [hl] at hval
    simp at hval
    rw [hval]

theorem lookupCount_traverse (f : File) (nm : String) (c : Nat)
    (h : lookupA (traverseAll f).typeUsageCount nm = some c) :
    c = (refOccurrences f nm).length := by
  have := countOf_traverse f nm
  unfold countOf at this
  rw [h] at this
  simpa using this

theorem countKey_traverse_of_decl (f : File) (nm : String)
    (h : declOccurrences f nm ≠ []) :
    (lookupA (traverseAll f).typeUsageCount nm).isSome = true := by
  unfold traverseAll traversePrefix
  rw [countKey_foldl]
  simp only [initState, lookupA, Option.isSome_none, Bool.false_or]
  rw [Bool.not_eq_true']
  rw [Bool.eq_false_iff]
  intro hemp
  rw [List.isEmpty_iff] at hemp
  apply h
  unfold declOccurrences
  rw [List.eq_nil_iff_forall_not_mem]
  intro i hi
  have hi2 := List.mem_filter.mp hi
  have : i ∈ (List.range f.size).filter (fun i => isDeclB f nm i || isRefB f nm i) := by
    apply List.mem_filter.mpr
    exact ⟨hi2.1, by simp [hi2.2]⟩
  rw [hemp] at this
  simp at this

theorem lookupDefs_traverse (f : File) (nm : String) :
    lookupA (traverseAll f).typeDefinitions nm =
      (declOccurrences f nm).foldl (fun _ i => some i) none := by
  unfold traverseAll traversePrefix declOccurrences
  rw [lookupDefs_foldl]
  simp [initState, lookupA]

theorem nodupCount_traverse (f : File) :
    (keysOf (traverseAll f).typeUsageCount).Nodup := by
  unfold traverseAll traversePrefix
  exact nodupCount_foldl f _ initState (by simp [initState, keysOf])

theorem foldl_some_mem {L : List Nat} {b : Option Nat} {d : Nat}
    (h : L.foldl (fun _ i => some i) b = some d) : d ∈ L ∨ b = some d := by
  induction L generalizing b with
  | nil => exact Or.inr h
  | cons i L ih =>
      rw [List.foldl_cons] at h
      rcases ih h with h1 | h2
      · exact Or.inl (List.mem_cons_of_mem _ h1)
      · injection h2 with h2
        subst h2
        exact Or.inl (List.mem_cons_self _ _)

theorem defs_traverse_mem (f : File) (nm : String) (d : Nat)
    (h : lookupA (traverseAll f).typeDefinitions nm = some d) :
    d ∈ declOccurrences f nm := by
  rw [lookupDefs_traverse] at h
  rcases foldl_some_mem h with h1 | h2
  · exact h1
  · simp at h2

/- ----------------------------------------------------------------
   Lemmas about the Program:exit classification.
   ---------------------------------------------------------------- -/

theorem classify_some {f : File} {s : RuleState} {nm : String} {c : Nat} {rpt : Report}
    (h : classify f s (nm, c) = some rpt) :
    rpt.typeName = nm ∧ lookupA s.typeDefinitions nm = some rpt.defIdx ∧ c = 1 ∧
    isExported f rpt.defIdx = false ∧
    ∃ r, lookupA s.typeReferences nm = some [r] ∧ isInFunctionParameter f r = true ∧
      rpt.fixes = computeFix f rpt.defIdx r := by
  unfold classify at h
  simp only at h
  split at h
  · exact absurd h (by simp)
  next d hd =>
    split at h
    · exact absurd h (by simp)
    next hc =>
      push_neg at hc
      split at h
      · exact absurd h (by simp)
      next hex =>
        rw [Bool.not_eq_true] at hex
        split at h
        · exact absurd h (by simp)
        next refs hrefs =>
          split at h
          next r =>
            split at h
            next hp =>
              injection h with h
              subst h
              exact ⟨rfl, hd, hc, hex, r, hrefs, hp, rfl⟩
            next hp => exact absurd h (by simp)
          next hother => exact absurd h (by simp)

theorem classify_none_of_not_param (f : File) (s : RuleState) (nm : String) (c : Nat)
    (r : Nat) (hr : lookupA s.typeReferences nm = some [r])
    (hp : isInFunctionParameter f r = false) :
    classify f s (nm, c) = none := by
  unfold classify
  simp only
  split
  · rfl
  next d hd =>
    split
    · rfl
    next hc =>
      split
      · rfl
      next hex =>
        rw [hr]
        simp [hp]

theorem reportsFor_cons (x : Report) (l : List Report) (nm : String) :
    reportsFor (x :: l) nm =
      if x.typeName = nm then x :: reportsFor l nm else reportsFor l nm := by
  unfold reportsFor
  rw [List.filter_cons]
  by_cases h : x.typeName = nm <;> simp [h]

theorem reportsFor_filterMap_nil (f : File) (s : RuleState)
    (entries : List (String × Nat)) (nm : String)
    (h : ∀ e ∈ entries, e.fst = nm → classify f s e = none) :
    reportsFor (entries.filterMap (classify f s)) nm = [] := by
  induction entries with
  | nil => simp [reportsFor]
  | cons e t ih =>
      rw [List.filterMap_cons]
      cases hc : classify f s e with
      | none => exact ih (fun e' he' => h e' (List.mem_cons_of_mem _ he'))
      | some rpt =>
          have hty : rpt.typeName = e.fst := by
            obtain ⟨e1, e2⟩ := e
            exact (classify_some hc).1
          have hne : rpt.typeName ≠ nm := by
            rw [hty]
            intro he
            rw [h e (List.mem_cons_self _ _) he] at hc
            simp at hc
          rw [reportsFor_cons, if_neg hne]
          exact ih (fun e' he' => h e' (List.mem_cons_of_mem _ he'))

theorem reportsFor_filterMap_single (f : File) (s : RuleState)
    (entries : List (String × Nat)) (nm : String) (c : Nat) (rpt : Report)
    (hnd : (keysOf entries).Nodup) (hm : (nm, c) ∈ entries)
    (hc : classify f s (nm, c) = some rpt) :
    reportsFor (entries.filterMap (classify f s)) nm = [rpt] := by
  induction entries with
  | nil => simp at hm
  | cons e t ih =>
      obtain ⟨k, v⟩ := e
      have hnd' := List.nodup_cons.mp (show (k :: keysOf t).Nodup from hnd)
      rcases List.mem_cons.mp hm with h1 | h2
      · injection h1 with ha hb
        subst ha
        subst hb
        rw [List.filterMap_cons, hc]
        have hty : rpt.typeName = nm := (classify_some hc).1
        rw [reportsFor_cons, if_pos hty]
        rw [reportsFor_filterMap_nil f s t nm]
        · intro e' he' hfst
          exfalso
          apply hnd'.1
          rw [← hfst]
          exact List.mem_map_of_mem Prod.fst he'
      · have hkne : k ≠ nm := by
          intro he
          apply hnd'.1
          rw [he]
          exact List.mem_map_of_mem Prod.fst h2
        rw [List.filterMap_cons]
        cases hcc : classify f s (k, v) with
        | none => exact ih hnd'.2 h2
        | some rpt' =>
            have hty' : rpt'.typeName = k := (classify_some hcc).1
            rw [reportsFor_cons, if_neg (by rw [hty']; exact hkne)]
            exact ih hnd'.2 h2

theorem run_reportsFor (f : File) (nm : String) (d r : Nat)
    (hd : declOccurrences f nm = [d]) (hr : refOccurrences f nm = [r])
    (hex : isExported f d = false) (hp : isInFunctionParameter f r = true) :
    reportsFor (run f) nm = [Report.mk d nm (computeFix f d r)] := by
  have hdefs : lookupA (traverseAll f).typeDefinitions nm = some d := by
    rw [lookupDefs_traverse, hd]
    rfl
  have hrefs : lookupA (traverseAll f).typeReferences nm = some [r] := by
    rw [lookupRefs_traverse, hr]
    simp
  have hkey : (lookupA (traverseAll f).typeUsageCount nm).isSome = true :=
    countKey_traverse_of_decl f nm (by rw [hd]; simp)
  rcases Option.isSome_iff_exists.mp hkey with ⟨c, hcv⟩
  have hc1 : c = 1 := by
    have := lookupCount_traverse f nm c hcv
    rw [hr] at this
    simpa using this
  subst hc1
  have hcls : classify f (traverseAll f) (nm, 1) =
      some (Report.mk d nm (computeFix f d r)) := by
    unfold classify
    simp only
    rw [hdefs, hrefs]
    simp [hex, hp]
  unfold run programExit
  exact reportsFor_filterMap_single f (traverseAll f) _ nm 1 _
    (nodupCount_traverse f) (mem_of_lookupA hcv) hcls

theorem run_reportsFor_nil (f : File) (nm : String)
    (h : ∀ c, lookupA (traverseAll f).typeUsageCount nm = some c →
         classify f (traverseAll f) (nm, c) = none) :
    reportsFor (run f) nm = [] := by
  unfold run programExit
  apply reportsFor_filterMap_nil
  intro e he hfst
  obtain ⟨k, v⟩ := e
  simp only at hfst
  subst hfst
  exact h v (lookupA_of_mem_nodup (nodupCount_traverse f) he)

theorem run_defIdx_props (f : File) (rpt : Report) (h : rpt ∈ run f) :
    isExported f rpt.defIdx = false ∧ rpt.defIdx ∈ declOccurrences f rpt.typeName := by
  unfold run programExit at h
  rcases List.mem_filterMap.mp h with ⟨e, he, hc⟩
  obtain ⟨k, v⟩ := e
  have hprops := classify_some hc
  refine ⟨hprops.2.2.2.1, ?_⟩
  rw [hprops.1]
  exact defs_traverse_mem f k rpt.defIdx hprops.2.1

/- ----------------------------------------------------------------
   Facts about the fix computation.
   ---------------------------------------------------------------- -/

theorem computeFix_none (f : File) (d r : Nat)
    (h : refParentNotAnn f r = true ∨ getTypeBody f d = none) :
    computeFix f d r = none := by
  unfold computeFix
  simp only
  split
  · rfl
  next body hbody =>
    split
    · rfl
    next hbne =>
      split
      · rfl
      next pr hpr =>
        split
        next hann =>
          rcases h with h1 | h2
          · unfold refParentNotAnn at h1
            rw [hpr] at h1
            simp at h1
            exact absurd hann h1
          · rw [h2] at hbody
            exact absurd hbody (by simp)
        next => rfl

/- ----------------------------------------------------------------
   The claims.
   ---------------------------------------------------------------- -/

/-- Claim C5: a name with two or more type-position occurrences anywhere
in the file, wherever they sit, gets no diagnostic. -/
theorem claim_C5_multi_use_no_diagnostic (f : File) (nm : String)
    (h : 2 ≤ (refOccurrences f nm).length) :
    reportsFor (run f) nm = [] := by
  apply run_reportsFor_nil
  intro c hcv
  have hc := lookupCount_traverse f nm c hcv
  unfold classify
  simp only
  split
  · rfl
  next d hd =>
    split
    · rfl
    next hcne =>
      exfalso
      push_neg at hcne
      omega

/-- Witness for claim C5: a declaration referenced from two parameter
annotations yields no diagnostic. -/
theorem claim_C5_witness :
    refOccurrences exF5 "U" = [9, 17] ∧ reportsFor (run exF5) "U" = [] :=
  ⟨by decide, claim_C5_multi_use_no_diagnostic exF5 "U" (by decide)⟩

/-- Claim C7: a declaration that is the immediate subject of an export
clause never receives a diagnostic, for every usage count and context. -/
theorem claim_C7_exported_no_diagnostic (f : File) (d p : Nat)
    (hpar : (f.node d).parent = some p)
    (hexp : (f.node p).typ = NType.exportNamedDeclaration ∨
            (f.node p).typ = NType.exportDefaultDeclaration) :
    reportsForDecl (run f) d = [] := by
  unfold reportsForDecl
  rw [List.filter_eq_nil_iff]
  intro rpt hm
  have hprops := run_defIdx_props f rpt hm
  have hexd : isExported f d = true := by
    unfold isExported
    rw [hpar]
    simpa using hexp
  simp only [decide_eq_true_eq]
  intro he
  rw [he] at hprops
  rw [hprops.1] at hexd
  exact absurd hexd (by simp)

/-- Witness for claim C7: the exported single-use declaration gets no
diagnostic. -/
theorem claim_C7_witness :
    (exF7.node 2).parent = some 1 ∧
    (exF7.node 1).typ = NType.exportNamedDeclaration ∧
    reportsForDecl (run exF7) 2 = [] :=
  ⟨by decide, by decide,
   claim_C7_exported_no_diagnostic exF7 2 1 (by decide) (Or.inl (by decide))⟩

/-- Claim C8: a declaration carrying type parameters is never recorded
and therefore never receives a diagnostic, for every usage count and
context. -/
theorem claim_C8_generic_no_diagnostic (f : File) (d : Nat)
    (h : (f.node d).hasTypeParams = true) :
    reportsForDecl (run f) d = [] := by
  unfold reportsForDecl
  rw [List.filter_eq_nil_iff]
  intro rpt hm
  have hprops := (run_defIdx_props f rpt hm).2
  simp only [decide_eq_true_eq]
  intro he
  rw [he] at hprops
  have hb := List.mem_filter.mp hprops
  have hd2 := hb.2
  simp only [isDeclB, decide_eq_true_eq] at hd2
  simp [h] at hd2

/-- Witness for claim C8: the generic declaration of the example file
gets no diagnostic. -/
theorem claim_C8_witness :
    (exF8.node 1).hasTypeParams = true ∧ reportsForDecl (run exF8) 1 = [] :=
  ⟨by decide, claim_C8_generic_no_diagnostic exF8 1 (by decide)⟩

/-- Claim C9: at every prefix of the traversal, the usage count recorded
for every name equals the length of the reference list recorded for that
name, a missing count counting as 0 and a missing list as empty. -/
theorem claim_C9_count_eq_reflist_length (f : File) (k : Nat) (nm : String) :
    countOf (traversePrefix f k) nm = (refsOf (traversePrefix f k) nm).length := by
  unfold traversePrefix
  rw [countOf_foldl, refsOf_foldl]
  simp [countOf, refsOf, initState, lookupA]

/- ----------------------------------------------------------------
   Soundness of the parameter-context walk: a positive answer always
   exhibits a type annotation on the ancestor chain whose annotated
   node is listed among the parameters of some function node.
   ---------------------------------------------------------------- -/

theorem node_oob (f : File) (i : Nat) (h : f.size ≤ i) : f.node i = dNode := by
  unfold File.node
  exact List.getD_eq_default _ _ h

theorem isFunctionKind_lt_size (f : File) (g : Nat)
    (h : isFunctionKind (f.node g).typ = true) : g < f.size := by
  by_contra hge
  push_neg at hge
  rw [node_oob f g hge] at h
  simp [dNode, isFunctionKind] at h

theorem findFuncAncestor_some_true (f : File) (t : Nat) :
    ∀ fuel o, findFuncAncestor f t fuel o = some true →
      ∃ g, g < f.size ∧ isFunctionKind (f.node g).typ = true ∧ t ∈ (f.node g).params := by
  intro fuel
  induction fuel with
  | zero =>
      intro o h
      cases o <;> simp [findFuncAncestor] at h
  | succ fuel ih =>
      intro o h
      cases o with
      | none => simp [findFuncAncestor] at h
      | some a =>
          rw [findFuncAncestor] at h
          split at h
          next hfk =>
            injection h with h
            exact ⟨a, isFunctionKind_lt_size f a hfk, hfk, of_decide_eq_true h⟩
          next hfk =>
            split at h
            next hvd =>
              split at h
              next ini hini =>
                split at h
                next hfe =>
                  injection h with h
                  have hik : isFunctionKind (f.node ini).typ = true := by
                    rcases hfe with h1 | h1 <;> simp [isFunctionKind, h1]
                  exact ⟨ini, isFunctionKind_lt_size f ini hik, hik, of_decide_eq_true h⟩
                next hfe => exact ih _ h
              next hini => exact ih _ h
            next hvd => exact ih _ h

theorem isInFuncParamFrom_sound (f : File) :
    ∀ fuel o, isInFuncParamFrom f fuel o = true →
      ∃ a ∈ chainFrom f fuel o, (f.node a).typ = NType.tsTypeAnn ∧
        ∃ p, (f.node a).parent = some p ∧
          ∃ g, g < f.size ∧ isFunctionKind (f.node g).typ = true ∧ p ∈ (f.node g).params := by
  intro fuel
  induction fuel with
  | zero =>
      intro o h
      cases o <;> simp [isInFuncParamFrom] at h
  | succ fuel ih =>
      intro o h
      cases o with
      | none => simp [isInFuncParamFrom] at h
      | some i =>
          rw [isInFuncParamFrom] at h
          rw [show chainFrom f (fuel + 1) (some i) = i :: chainFrom f fuel (f.node i).parent
              from rfl]
          split at h
          next hann =>
            split at h
            next p hp =>
              split at h
              next hpat =>
                split at h
                next b hb =>
                  subst h
                  exact ⟨i, List.mem_cons_self _ _, hann, p, hp,
                    findFuncAncestor_some_true f p fuel _ hb⟩
                next hb =>
                  rcases ih _ h with ⟨a, ha, rest⟩
                  exact ⟨a, List.mem_cons_of_mem _ ha, rest⟩
              next hpat =>
                split at h
                next hid =>
                  split at h
                  next b hb =>
                    subst h
                    exact ⟨i, List.mem_cons_self _ _, hann, p, hp,
                      findFuncAncestor_some_true f p fuel _ hb⟩
                  next hb =>
                    rcases ih _ h with ⟨a, ha, rest⟩
                    exact ⟨a, List.mem_cons_of_mem _ ha, rest⟩
                next hid =>
                  rcases ih _ h with ⟨a, ha, rest⟩
                  exact ⟨a, List.mem_cons_of_mem _ ha, rest⟩
            next hp =>
              rcases ih _ h with ⟨a, ha, rest⟩
              exact ⟨a, List.mem_cons_of_mem _ ha, rest⟩
          next hann =>
            rcases ih _ h with ⟨a, ha, rest⟩
            exact ⟨a, List.mem_cons_of_mem _ ha, rest⟩

/-- Claim C6: a declaration whose single type-position reference does
not lie inside any function parameter type annotation — no annotation on
the ancestor chain of the reference has its annotated node listed among
the parameters of any function node — gets no diagnostic. -/
theorem claim_C6_non_param_context_no_diagnostic (f : File) (nm : String) (r : Nat)
    (hr : refOccurrences f nm = [r])
    (h : ∀ a ∈ ancestors f r, (f.node a).typ = NType.tsTypeAnn →
         ∀ p ∈ ((f.node a).parent).toList,
         ∀ g, g < f.size → isFunctionKind (f.node g).typ = true →
           p ∉ (f.node g).params) :
    reportsFor (run f) nm = [] := by
  have hrefs : lookupA (traverseAll f).typeReferences nm = some [r] := by
    rw [lookupRefs_traverse, hr]
    simp
  have hp : isInFunctionParameter f r = false := by
    by_contra hcon
    rw [Bool.not_eq_false] at hcon
    rcases isInFuncParamFrom_sound f _ _ hcon with
      ⟨a, ha, hann, p, hpar, g, hg, hfk, hmem⟩
    exact h a ha hann p (by simp [hpar]) g hg hfk hmem
  apply run_reportsFor_nil
  intro c hcv
  exact classify_none_of_not_param f (traverseAll f) nm c r hrefs hp

/-- Witness for claim C6: a single use in a variable declaration
annotation yields no diagnostic. -/
theorem claim_C6_witness :
    refOccurrences exF6 "C" = [7] ∧ reportsFor (run exF6) "C" = [] :=
  ⟨by decide, claim_C6_non_param_context_no_diagnostic exF6 "C" 7
    (by decide) (by decide)⟩

/- ----------------------------------------------------------------
   Fuel stability of the walks on well-formed trees, and claim C10.
   ---------------------------------------------------------------- -/

theorem parent_lt (f : File) (hw : Wf f) {i p : Nat}
    (h : (f.node i).parent = some p) : p < i := by
  by_cases hi : i < f.size
  · have hx := hw i hi
    unfold parentLt at hx
    rw [h] at hx
    simpa using hx
  · push_neg at hi
    rw [node_oob f i hi] at h
    simp [dNode] at h

theorem findFuncAncestor_none (f : File) (t : Nat) (fuel : Nat) :
    findFuncAncestor f t fuel none = none := by
  cases fuel <;> rfl

theorem isInFuncParamFrom_none (f : File) (fuel : Nat) :
    isInFuncParamFrom f fuel none = false := by
  cases fuel <;> rfl

theorem findFuncAncestor_stable (f : File) (hw : Wf f) (t : Nat) :
    ∀ fuel fuel' a, a < fuel → a < fuel' →
      findFuncAncestor f t fuel (some a) = findFuncAncestor f t fuel' (some a) := by
  intro fuel
  induction fuel with
  | zero =>
      intro fuel' a h h'
      exact absurd h (Nat.not_lt_zero a)
  | succ fuel ih =>
      intro fuel' a ha ha'
      obtain ⟨k', rfl⟩ : ∃ k', fuel' = k' + 1 := ⟨fuel' - 1, by omega⟩
      simp only [findFuncAncestor]
      have hrec : ∀ o, (f.node a).parent = o →
          findFuncAncestor f t fuel o = findFuncAncestor f t k' o := by
        intro o ho
        cases o with
        | none => rw [findFuncAncestor_none, findFuncAncestor_none]
        | some p =>
            have hpa : p < a := parent_lt f hw ho
            exact ih k' p (by omega) (by omega)
      by_cases hfk : isFunctionKind (f.node a).typ
      · simp [hfk]
      · simp only [hfk, Bool.false_eq_true, if_false]
        by_cases hvd : (f.node a).typ = NType.variableDeclarator
        · simp only [hvd, if_true]
          cases hini : (f.node a).init with
          | none => exact hrec _ rfl
          | some ini =>
              by_cases hfe : (f.node ini).typ = NType.functionExpression ∨
                  (f.node ini).typ = NType.arrowFunctionExpression
              · simp [hfe]
              · simp only [hfe, if_false]
                exact hrec _ rfl
        · simp only [hvd, if_false]
          exact hrec _ rfl

theorem isInFuncParamFrom_stable (f : File) (hw : Wf f) :
    ∀ fuel fuel' i, i < fuel → i < fuel' →
      isInFuncParamFrom f fuel (some i) = isInFuncParamFrom f fuel' (some i) := by
  intro fuel
  induction fuel with
  | zero =>
      intro fuel' i h h'
      exact absurd h (Nat.not_lt_zero i)
  | succ fuel ih =>
      intro fuel' i hi hi'
      obtain ⟨k', rfl⟩ : ∃ k', fuel' = k' + 1 := ⟨fuel' - 1, by omega⟩
      simp only [isInFuncParamFrom]
      have hrec : ∀ o, (f.node i).parent = o →
          isInFuncParamFrom f fuel o = isInFuncParamFrom f k' o := by
        intro o ho
        cases o with
        | none => rw [isInFuncParamFrom_none, isInFuncParamFrom_none]
        | some p =>
            have hpi : p < i := parent_lt f hw ho
            exact ih k' p (by omega) (by omega)
      by_cases hann : (f.node i).typ = NType.tsTypeAnn
      · simp only [hann, if_true]
        cases hp : (f.node i).parent with
        | none => rw [isInFuncParamFrom_none, isInFuncParamFrom_none]
        | some p =>
            have hpi : p < i := parent_lt f hw hp
            have hinner : findFuncAncestor f p fuel ((f.node p).parent) =
                findFuncAncestor f p k' ((f.node p).parent) := by
              cases hw2 : (f.node p).parent with
              | none => rw [findFuncAncestor_none, findFuncAncestor_none]
              | some w =>
                  have hwp : w < p := parent_lt f hw hw2
                  exact findFuncAncestor_stable f hw p fuel k' w (by omega) (by omega)
            by_cases hpat : (f.node p).typ = NType.objectPattern ∨
                (f.node p).typ = NType.arrayPattern
            · simp only [hpat, if_true, hinner]
              cases h3 : findFuncAncestor f p k' ((f.node p).parent) with
              | some b => rfl
              | none => exact hrec _ hp
            · simp only [hpat, if_false]
              by_cases hid : (f.node p).typ = NType.identifier
              · simp only [hid, if_true, hinner]
                cases h3 : findFuncAncestor f p k' ((f.node p).parent) with
                | some b => rfl
                | none => exact hrec _ hp
              · simp only [hid, if_false]
                exact hrec _ hp
      · simp only [hann, if_false]
        exact hrec _ rfl

/-- Claim C10: when a destructuring parameter carries a default value,
the annotated pattern is wrapped in an assignment pattern and the
wrapper, not the pattern, is the listed parameter; the context check
compares the pattern against the parameter list by identity, returns
false, and the single-use declaration annotating the pattern is never
flagged. -/
theorem claim_C10_default_value_pattern_not_flagged (f : File) (nm : String)
    (r a p w g : Nat) (hw : Wf f) (hr : refOccurrences f nm = [r])
    (hra : (f.node r).parent = some a) (hann : (f.node a).typ = NType.tsTypeAnn)
    (hap : (f.node a).parent = some p)
    (hpat : (f.node p).typ = NType.objectPattern ∨ (f.node p).typ = NType.arrayPattern)
    (hpw : (f.node p).parent = some w)
    (hwf : isFunctionKind (f.node w).typ = false)
    (hwv : (f.node w).typ ≠ NType.variableDeclarator)
    (hwg : (f.node w).parent = some g)
    (hgf : isFunctionKind (f.node g).typ = true)
    (_hwmem : w ∈ (f.node g).params) (hpmem : p ∉ (f.node g).params) :
    reportsFor (run f) nm = [] := by
  have hrmem : r ∈ refOccurrences f nm := by
    rw [hr]
    exact List.mem_singleton.mpr rfl
  unfold refOccurrences at hrmem
  have hrfil := List.mem_filter.mp hrmem
  have hrsize : r < f.size := List.mem_range.mp hrfil.1
  have hrtyp : (f.node r).typ = NType.tsTypeReference := by
    have := of_decide_eq_true hrfil.2
    exact this.1
  have har : a < r := parent_lt f hw hra
  have hpa : p < a := parent_lt f hw hap
  have hwp : w < p := parent_lt f hw hpw
  have hgw : g < w := parent_lt f hw hwg
  have hinner_g : findFuncAncestor f p (g + 1) (some g) = some false := by
    simp only [findFuncAncestor]
    simp [hgf, hpmem]
  have hinner_w : ∀ fuel, w < fuel → findFuncAncestor f p fuel (some w) = some false := by
    intro fuel hwlt
    obtain ⟨k, rfl⟩ : ∃ k, fuel = k + 1 := ⟨fuel - 1, by omega⟩
    simp only [findFuncAncestor]
    simp only [hwf, Bool.false_eq_true, if_false, hwv, ite_false]
    rw [hwg]
    rw [findFuncAncestor_stable f hw p k (g + 1) g (by omega) (by omega)]
    exact hinner_g
  have houter_a : ∀ fuel, a < fuel → isInFuncParamFrom f fuel (some a) = false := by
    intro fuel halt
    obtain ⟨k, rfl⟩ : ∃ k, fuel = k + 1 := ⟨fuel - 1, by omega⟩
    simp only [isInFuncParamFrom]
    simp only [hann, if_true]
    rw [hap]
    simp only [hpat, if_true]
    rw [hpw]
    rw [hinner_w k (by omega)]
  have hfinal : isInFunctionParameter f r = false := by
    unfold isInFunctionParameter
    simp only [isInFuncParamFrom]
    simp only [hrtyp]
    simp only [show (NType.tsTypeReference = NType.tsTypeAnn) = False from by simp,
      if_false]
    rw [hra]
    exact houter_a f.size (by omega)
  have hrefs : lookupA (traverseAll f).typeReferences nm = some [r] := by
    rw [lookupRefs_traverse, hr]
    simp
  apply run_reportsFor_nil
  intro c hcv
  exact classify_none_of_not_param f (traverseAll f) nm c r hrefs hfinal

/-- Witness for claim C10: the example file with a defaulted
destructuring parameter yields no diagnostic. -/
theorem claim_C10_witness :
    Wf exF10 ∧ refOccurrences exF10 "M" = [10] ∧
    reportsFor (run exF10) "M" = [] :=
  ⟨by decide, by decide,
   claim_C10_default_value_pattern_not_flagged exF10 "M" 10 9 8 7 6
     (by decide) (by decide) (by decide) (by decide) (by decide)
     (Or.inl (by decide)) (by decide) (by decide) (by decide) (by decide)
     (by decide) (by decide) (by decide)⟩

/- ----------------------------------------------------------------
   Text splicing: characterizing the trailing-terminator trim, the
   consumer application of edits, and range containment of the
   top-level-statement walk.
   ---------------------------------------------------------------- -/

theorem charAt_drop (text : List Char) : ∀ p c, charAt text p = some c →
    text.drop p = c :: text.drop (p + 1) := by
  induction text with
  | nil =>
      intro p c h
      cases p <;> simp [charAt] at h
  | cons x xs ih =>
      intro p c h
      cases p with
      | zero =>
          simp [charAt] at h
          subst h
          simp
      | succ p =>
          simp only [charAt] at h
          simp only [List.drop_succ_cons]
          exact ih p c h

theorem sliceText_zero (text : List Char) (p : Nat) : sliceText text p p = [] := by
  simp [sliceText]

theorem sliceText_one (text : List Char) (p : Nat) (c : Char)
    (h : charAt text p = some c) : sliceText text p (p + 1) = [c] := by
  unfold sliceText
  rw [charAt_drop text p c h]
  simp

theorem sliceText_two (text : List Char) (p : Nat) (c1 c2 : Char)
    (h1 : charAt text p = some c1) (h2 : charAt text (p + 1) = some c2) :
    sliceText text p (p + 2) = [c1, c2] := by
  unfold sliceText
  rw [charAt_drop text p c1 h1]
  have : p + 2 - p = 2 := by omega
  rw [this]
  rw [show (2 : Nat) = 1 + 1 from rfl]
  simp [List.take_succ_cons]
  rw [show (1 : Nat) = 0 + 1 from rfl]
  rw [charAt_drop text (p + 1) c2 h2]
  simp

theorem trimEnd_of_none (text : List Char) (p : Nat) (h : charAt text p = none) :
    trimEnd text p = p := by
  unfold trimEnd
  rw [h]

theorem trimEnd_of_nl (text : List Char) (p : Nat) (h : charAt text p = some '\n') :
    trimEnd text p = p + 1 := by
  unfold trimEnd
  rw [h]
  rfl

theorem trimEnd_of_cr_nl (text : List Char) (p : Nat) (h1 : charAt text p = some '\r')
    (h2 : charAt text (p + 1) = some '\n') : trimEnd text p = p + 2 := by
  unfold trimEnd
  rw [h1, h2]
  rfl

theorem trimEnd_of_cr_none (text : List Char) (p : Nat)
    (h1 : charAt text p = some '\r') (h2 : charAt text (p + 1) = none) :
    trimEnd text p = p + 1 := by
  unfold trimEnd
  rw [h1, h2]
  rfl

theorem trimEnd_of_cr_notnl (text : List Char) (p : Nat) (c2 : Char)
    (h1 : charAt text p = some '\r') (h2 : charAt text (p + 1) = some c2)
    (h3 : c2 ≠ '\n') : trimEnd text p = p + 1 := by
  unfold trimEnd
  rw [h1, h2]
  show (if c2 = '\n' then p + 2 else p + 1) = p + 1
  rw [if_neg h3]

theorem trimEnd_of_other (text : List Char) (p : Nat) (c : Char)
    (h : charAt text p = some c) (h1 : c ≠ '\n') (h2 : c ≠ '\r') :
    trimEnd text p = p := by
  unfold trimEnd
  rw [h]
  show (if c = '\n' then p + 1
        else if c = '\r' then
          match charAt text (p + 1) with
          | some c2 => if c2 = '\n' then p + 2 else p + 1
          | none => p + 1
        else p) = p
  rw [if_neg h1, if_neg h2]

theorem trimEnd_spec (text : List Char) (p : Nat) :
    p ≤ trimEnd text p ∧ sliceText text p (trimEnd text p) ∈
      ([[], ['\n'], ['\r'], ['\r', '\n']] : List (List Char)) := by
  cases hc : charAt text p with
  | none => simp [trimEnd_of_none text p hc, sliceText_zero]
  | some c =>
      by_cases h1 : c = '\n'
      · subst h1
        rw [trimEnd_of_nl text p hc]
        exact ⟨by omega, by simp [sliceText_one text p _ hc]⟩
      · by_cases h2 : c = '\r'
        · subst h2
          cases hc2 : charAt text (p + 1) with
          | none =>
              rw [trimEnd_of_cr_none text p hc hc2]
              exact ⟨by omega, by simp [sliceText_one text p _ hc]⟩
          | some c2 =>
              by_cases h3 : c2 = '\n'
              · subst h3
                rw [trimEnd_of_cr_nl text p hc hc2]
                exact ⟨by omega, by simp [sliceText_two text p _ _ hc hc2]⟩
              · rw [trimEnd_of_cr_notnl text p c2 hc hc2 h3]
                exact ⟨by omega, by simp [sliceText_one text p _ hc]⟩
        · rw [trimEnd_of_other text p c hc h1 h2]
          simp [sliceText_zero]

theorem trimEnd_le_of_nonterm (text : List Char) (p q : Nat) (hpq : p ≤ q)
    (h1 : charAt text q ≠ some '\n') (h2 : charAt text q ≠ some '\r') :
    trimEnd text p ≤ q := by
  cases hc : charAt text p with
  | none => rw [trimEnd_of_none text p hc]; exact hpq
  | some c =>
      by_cases e1 : c = '\n'
      · subst e1
        rw [trimEnd_of_nl text p hc]
        have hne : p ≠ q := fun he => h1 (he ▸ hc)
        omega
      · by_cases e2 : c = '\r'
        · subst e2
          have hne : p ≠ q := fun he => h2 (he ▸ hc)
          cases hc2 : charAt text (p + 1) with
          | none =>
              rw [trimEnd_of_cr_none text p hc hc2]
              omega
          | some c2 =>
              by_cases e3 : c2 = '\n'
              · subst e3
                rw [trimEnd_of_cr_nl text p hc hc2]
                have hne2 : p + 1 ≠ q := fun he => h1 (he ▸ hc2)
                omega
              · rw [trimEnd_of_cr_notnl text p c2 hc hc2 e3]
                omega
        · rw [trimEnd_of_other text p c hc e1 e2]
          exact hpq

theorem sortEdits_pair (d a : Edit) :
    sortEdits [d, a] =
      if d.lo < a.lo ∨ (d.lo = a.lo ∧ d.hi ≤ a.hi) then [d, a] else [a, d] := by
  simp [sortEdits, insertEdit]

theorem applyEditsFrom_pair (text : List Char) (e1 e2 : Edit) :
    applyEditsFrom text 0 [e1, e2] =
      text.take e1.lo ++ e1.repl ++ sliceText text e1.hi e2.lo ++
        e2.repl ++ text.drop e2.hi := by
  simp [applyEditsFrom, sliceText]

theorem applyEdits_pair_left (text : List Char) (d a : Edit)
    (h1 : d.lo ≤ d.hi) (h2 : d.hi ≤ a.lo) (h3 : a.lo ≤ a.hi) :
    applyEdits text [d, a] =
      text.take d.lo ++ d.repl ++ sliceText text d.hi a.lo ++
        a.repl ++ text.drop a.hi := by
  unfold applyEdits
  rw [sortEdits_pair]
  rw [if_pos ?hc]
  case hc =>
    rcases Nat.lt_or_ge d.lo a.lo with hlt | hge
    · exact Or.inl hlt
    · have he : d.lo = a.lo := Nat.le_antisymm (Nat.le_trans h1 h2) hge
      exact Or.inr ⟨he, by omega⟩
  exact applyEditsFrom_pair text d a

theorem applyEdits_pair_right (text : List Char) (d a : Edit)
    (h1 : d.lo ≤ d.hi) (h2 : a.hi ≤ d.lo) (h3 : a.lo ≤ a.hi) (h4 : d.repl = []) :
    applyEdits text [d, a] =
      text.take a.lo ++ a.repl ++ sliceText text a.hi d.lo ++ text.drop d.hi := by
  unfold applyEdits
  rw [sortEdits_pair]
  by_cases hcond : d.lo < a.lo ∨ (d.lo = a.lo ∧ d.hi ≤ a.hi)
  · have heq : d.lo = a.lo ∧ d.hi = d.lo ∧ a.hi = a.lo := by
      rcases hcond with hlt | ⟨he, hhi⟩
      · omega
      · omega
    rw [if_pos hcond, applyEditsFrom_pair, h4]
    rw [heq.1, heq.2.1, heq.1]
    rw [show a.hi = a.lo from heq.2.2]
    simp [sliceText_zero]
  · rw [if_neg hcond, applyEditsFrom_pair, h4]
    simp

theorem node_lo_le_hi (f : File) (hrw : RangeWf f) (i : Nat) :
    (f.node i).lo ≤ (f.node i).hi := by
  by_cases hi : i < f.size
  · have hx := hrw i hi
    unfold rangeOk at hx
    rw [Bool.and_eq_true] at hx
    exact of_decide_eq_true hx.1
  · push_neg at hi
    rw [node_oob f i hi]
    exact Nat.le_refl 0

theorem parent_range (f : File) (hrw : RangeWf f) {i p : Nat}
    (h : (f.node i).parent = some p) :
    (f.node p).lo ≤ (f.node i).lo ∧ (f.node i).hi ≤ (f.node p).hi := by
  by_cases hi : i < f.size
  · have hx := hrw i hi
    unfold rangeOk at hx
    rw [Bool.and_eq_true] at hx
    have hx2 := hx.2
    rw [h] at hx2
    exact of_decide_eq_true hx2
  · push_neg at hi
    rw [node_oob f i hi] at h
    simp [dNode] at h

theorem gTLS_contains (f : File) (hrw : RangeWf f) :
    ∀ fuel i, (f.node (getTopLevelStatement f fuel i)).lo ≤ (f.node i).lo ∧
      (f.node i).hi ≤ (f.node (getTopLevelStatement f fuel i)).hi := by
  intro fuel
  induction fuel with
  | zero => intro i; exact ⟨Nat.le_refl _, Nat.le_refl _⟩
  | succ fuel ih =>
      intro i
      rw [getTopLevelStatement]
      cases hp : (f.node i).parent with
      | none => exact ⟨Nat.le_refl _, Nat.le_refl _⟩
      | some p =>
          dsimp only
          by_cases hp0 : p = 0
          · rw [if_pos hp0]
            exact ⟨Nat.le_refl _, Nat.le_refl _⟩
          · rw [if_neg hp0]
            have hcont := parent_range f hrw hp
            rcases ih p with ⟨ih1, ih2⟩
            exact ⟨Nat.le_trans ih1 hcont.1, Nat.le_trans hcont.2 ih2⟩

theorem computeFix_eq (f : File) (d r pr : Nat) (body : List Char)
    (hb : getTypeBody f d = some body) (hbne : body ≠ [])
    (hpr : (f.node r).parent = some pr) (hann : (f.node pr).typ = NType.tsTypeAnn) :
    computeFix f d r = some
      [Edit.mk (f.node (getTopLevelStatement f f.size d)).lo
         (trimEnd f.text (f.node (getTopLevelStatement f f.size d)).hi) [],
       Edit.mk (f.node ((f.node pr).typeAnn)).lo (f.node ((f.node pr).typeAnn)).hi
         body] := by
  unfold computeFix
  simp only
  rw [hb]
  dsimp only
  rw [if_neg hbne, hpr]
  dsimp only
  rw [if_pos hann]

/-- Counterexample to claim C2 as stated: on the standard single-use
file, the replacement edit the engine emits covers the inner type span
of the annotation — exactly the span of the reference node, offsets 30
to 31 — and not the span of the annotation node of the reference,
offsets 28 to 31; replacing the annotation span as the claim describes
produces a text that differs from the applied fix (it loses the colon
of the parameter). -/
theorem claim_C2_counterexample :
    run exF2 = [Report.mk 1 "P"
      (some [Edit.mk 0 16 [], Edit.mk 30 31 ("number".toList)])] ∧
    (exF2.node 9).parent = some 8 ∧ (exF2.node 8).typ = NType.tsTypeAnn ∧
    (exF2.node 8).lo = 28 ∧ (exF2.node 8).hi = 31 ∧
    applyEdits exF2.text [Edit.mk 0 16 [], Edit.mk 30 31 ("number".toList)] ≠
      specFixedText exF2.text 0 16 28 31 ("number".toList) := by
  refine ⟨by decide, by decide, by decide, by decide, by decide, by decide⟩

/-- Claim C2 (amended): for every fix the engine emits, the fixed text
is byte-identical to the original text with (a) the enclosing top-level
statement span of the declaration removed together with at most one
trailing line terminator (a lone line feed, a lone carriage return, or a
carriage-return/line-feed pair), and (b) the inner type span of the
annotation that is the immediate parent of the reference — for emitted
fixes this is exactly the span of the reference node, not the span of
the whole annotation — replaced by the body text of the declaration
extracted verbatim by range-based slicing, whenever the deletion span
and the replacement span are disjoint. -/
theorem claim_C2_roundtrip_amended (f : File) (nm : String) (d r pr stmt tgt : Nat)
    (body : List Char) (hrw : RangeWf f)
    (hd : declOccurrences f nm = [d]) (hr : refOccurrences f nm = [r])
    (hex : isExported f d = false) (hp : isInFunctionParameter f r = true)
    (hb : getTypeBody f d = some body) (hbne : body ≠ [])
    (hpr : (f.node r).parent = some pr) (hann : (f.node pr).typ = NType.tsTypeAnn)
    (hstmt : stmt = getTopLevelStatement f f.size d)
    (htgt : tgt = (f.node pr).typeAnn)
    (hsep : trimEnd f.text (f.node stmt).hi ≤ (f.node tgt).lo ∨
            (f.node tgt).hi ≤ (f.node stmt).lo) :
    reportsFor (run f) nm = [Report.mk d nm
        (some [Edit.mk (f.node stmt).lo (trimEnd f.text (f.node stmt).hi) [],
               Edit.mk (f.node tgt).lo (f.node tgt).hi body])] ∧
    (f.node stmt).hi ≤ trimEnd f.text (f.node stmt).hi ∧
    sliceText f.text (f.node stmt).hi (trimEnd f.text (f.node stmt).hi) ∈
      ([[], ['\n'], ['\r'], ['\r', '\n']] : List (List Char)) ∧
    applyEdits f.text
        [Edit.mk (f.node stmt).lo (trimEnd f.text (f.node stmt).hi) [],
         Edit.mk (f.node tgt).lo (f.node tgt).hi body] =
      specFixedText f.text (f.node stmt).lo (trimEnd f.text (f.node stmt).hi)
        (f.node tgt).lo (f.node tgt).hi body := by
  subst hstmt
  subst htgt
  refine ⟨?_, (trimEnd_spec f.text _).1, (trimEnd_spec f.text _).2, ?_⟩
  · rw [run_reportsFor f nm d r hd hr hex hp,
      computeFix_eq f d r pr body hb hbne hpr hann]
  · have hdlo : (f.node (getTopLevelStatement f f.size d)).lo ≤
        (f.node (getTopLevelStatement f f.size d)).hi := node_lo_le_hi f hrw _
    have hdtr : (f.node (getTopLevelStatement f f.size d)).hi ≤
        trimEnd f.text (f.node (getTopLevelStatement f f.size d)).hi :=
      (trimEnd_spec f.text _).1
    have htlo : (f.node ((f.node pr).typeAnn)).lo ≤
        (f.node ((f.node pr).typeAnn)).hi := node_lo_le_hi f hrw _
    by_cases hbr : trimEnd f.text (f.node (getTopLevelStatement f f.size d)).hi ≤
        (f.node ((f.node pr).typeAnn)).lo
    · rw [applyEdits_pair_left f.text _ _ (Nat.le_trans hdlo hdtr) hbr htlo]
      unfold specFixedText
      rw [if_pos hbr]
      simp
    · have hbr2 : (f.node ((f.node pr).typeAnn)).hi ≤
          (f.node (getTopLevelStatement f f.size d)).lo := by
        rcases hsep with h | h
        · exact absurd h hbr
        · exact h
      rw [applyEdits_pair_right f.text _ _ (Nat.le_trans hdlo hdtr) hbr2 htlo rfl]
      unfold specFixedText
      rw [if_neg hbr]

/-- Witness for the amended claim C2: on the standard single-use file
the applied fix equals the described round-trip text. -/
theorem claim_C2_amended_witness :
    reportsFor (run exF2) "P" = [Report.mk 1 "P"
        (some [Edit.mk 0 16 [], Edit.mk 30 31 ("number".toList)])] ∧
    (15 : Nat) ≤ 16 ∧
    sliceText exF2.text 15 16 ∈ ([[], ['\n'], ['\r'], ['\r', '\n']] : List (List Char)) ∧
    applyEdits exF2.text [Edit.mk 0 16 [], Edit.mk 30 31 ("number".toList)] =
      specFixedText exF2.text 0 16 30 31 ("number".toList) :=
  claim_C2_roundtrip_amended exF2 "P" 1 9 8 1 9 ("number".toList)
    (by decide) (by decide) (by decide) (by decide) (by decide)
    (by decide) (by decide) (by decide) (by decide) (by decide)
    (by decide) (by decide)

/-- Counterexample to claim C3 as stated: on the file whose arrow body
declares the alias used by the arrow parameter — the declaration nested
inside the same top-level statement that contains the single reference —
the engine emits a fix whose deletion range contains the replacement
range, so the two edit ranges overlap. -/
theorem claim_C3_counterexample :
    Wf exF3 ∧ RangeWf exF3 ∧
    run exF3 = [Report.mk 9 "P"
      (some [Edit.mk 0 50 [], Edit.mk 14 15 ("number".toList)])] ∧
    rangesOverlap 0 50 14 15 = true := by
  refine ⟨by decide, by decide, by decide, by decide⟩

/-- Claim C3 (amended): for every diagnostic the engine emits with fix
edits, the deletion range and the replacement range do not overlap
whenever the top-level statement enclosing the declaration and the
top-level statement enclosing the replaced inner type node occupy
disjoint ranges and, when the statement of the declaration comes first,
the statement of the reference does not begin with a line-terminator
character; when the declaration is nested inside the very statement
containing the reference the ranges can overlap. -/
theorem claim_C3_nonoverlap_amended (f : File) (nm : String)
    (d r pr stmt tgt s2 : Nat) (body : List Char) (hrw : RangeWf f)
    (hd : declOccurrences f nm = [d]) (hr : refOccurrences f nm = [r])
    (hex : isExported f d = false) (hp : isInFunctionParameter f r = true)
    (hb : getTypeBody f d = some body) (hbne : body ≠ [])
    (hpr : (f.node r).parent = some pr) (hann : (f.node pr).typ = NType.tsTypeAnn)
    (hstmt : stmt = getTopLevelStatement f f.size d)
    (htgt : tgt = (f.node pr).typeAnn)
    (hs2 : s2 = getTopLevelStatement f f.size tgt)
    (hdisj : ((f.node stmt).hi ≤ (f.node s2).lo ∧
              charAt f.text (f.node s2).lo ≠ some '\n' ∧
              charAt f.text (f.node s2).lo ≠ some '\r') ∨
             (f.node s2).hi ≤ (f.node stmt).lo) :
    reportsFor (run f) nm = [Report.mk d nm
        (some [Edit.mk (f.node stmt).lo (trimEnd f.text (f.node stmt).hi) [],
               Edit.mk (f.node tgt).lo (f.node tgt).hi body])] ∧
    rangesOverlap (f.node stmt).lo (trimEnd f.text (f.node stmt).hi)
      (f.node tgt).lo (f.node tgt).hi = false := by
  subst hstmt
  subst htgt
  subst hs2
  constructor
  · rw [run_reportsFor f nm d r hd hr hex hp,
      computeFix_eq f d r pr body hb hbne hpr hann]
  · have hcont := gTLS_contains f hrw f.size ((f.node pr).typeAnn)
    unfold rangesOverlap
    rw [decide_eq_false_iff_not]
    rw [Nat.not_lt]
    rcases hdisj with ⟨hle, hn1, hn2⟩ | hle
    · have htr := trimEnd_le_of_nonterm f.text _ _ hle hn1 hn2
      have hc1 := hcont.1
      omega
    · have hc2 := hcont.2
      omega

/-- Witness for the amended claim C3: on the standard single-use file
with the declaration and the reference in distinct top-level statements,
the two emitted edit ranges do not overlap. -/
theorem claim_C3_amended_witness :
    reportsFor (run exF2) "P" = [Report.mk 1 "P"
        (some [Edit.mk 0 16 [], Edit.mk 30 31 ("number".toList)])] ∧
    rangesOverlap 0 16 30 31 = false :=
  claim_C3_nonoverlap_amended exF2 "P" 1 9 8 1 9 3 ("number".toList)
    (by decide) (by decide) (by decide) (by decide) (by decide)
    (by decide) (by decide) (by decide) (by decide) (by decide)
    (by decide) (by decide) (Or.inl (by decide))

/- ----------------------------------------------------------------
   Completeness of the parameter-context walk: when the innermost
   pattern-or-identifier-parented annotation ancestor of the reference
   annotates a node that is listed among the parameters of a function
   node, the walk answers true.  Claims C1 and C4, corrected.
   ---------------------------------------------------------------- -/

theorem chainFrom_none (f : File) (fuel : Nat) : chainFrom f fuel none = [] := by
  cases fuel <;> rfl

theorem chainFrom_length_le (f : File) (hw : Wf f) :
    ∀ fuel i, i < f.size → (chainFrom f fuel (some i)).length ≤ i + 1 := by
  intro fuel
  induction fuel with
  | zero =>
      intro i hi
      simp [chainFrom]
  | succ k ih =>
      intro i hi
      rw [show chainFrom f (k + 1) (some i) = i :: chainFrom f k (f.node i).parent
          from rfl]
      cases hp : (f.node i).parent with
      | none => simp [chainFrom_none]
      | some p =>
          have hpi : p < i := parent_lt f hw hp
          have hps : p < f.size := by omega
          have := ih p hps
          simp only [List.length_cons]
          omega

theorem isInFuncParamFrom_complete (f : File) (a p g : Nat)
    (hann : (f.node a).typ = NType.tsTypeAnn)
    (hap : (f.node a).parent = some p)
    (hpk : (f.node p).typ = NType.objectPattern ∨ (f.node p).typ = NType.arrayPattern ∨
           (f.node p).typ = NType.identifier)
    (hpg : (f.node p).parent = some g)
    (hgf : isFunctionKind (f.node g).typ = true)
    (hpmem : p ∈ (f.node g).params) :
    ∀ fuel o pre post, chainFrom f fuel o = pre ++ a :: post →
      (∀ b ∈ pre, annOnPattern f b = false) →
      pre.length + 1 + post.length < fuel →
      isInFuncParamFrom f fuel o = true := by
  intro fuel
  induction fuel with
  | zero =>
      intro o pre post hch hpre hlen
      omega
  | succ k ih =>
      intro o pre post hch hpre hlen
      cases o with
      | none =>
          rw [chainFrom_none] at hch
          exact absurd hch (by simp)
      | some i =>
          rw [show chainFrom f (k + 1) (some i) = i :: chainFrom f k (f.node i).parent
              from rfl] at hch
          simp only [isInFuncParamFrom]
          cases pre with
          | nil =>
              simp only [List.nil_append] at hch
              injection hch with hia hch
              subst hia
              simp only [List.length_nil] at hlen
              obtain ⟨k2, rfl⟩ : ∃ k2, k = k2 + 1 := ⟨k - 1, by omega⟩
              simp only [hann, if_true]
              rw [hap]
              dsimp only
              have hinner : findFuncAncestor f p (k2 + 1) ((f.node p).parent) =
                  some true := by
                rw [hpg]
                simp only [findFuncAncestor]
                rw [hgf]
                simp [hpmem]
              rcases hpk with h1 | h1 | h1
              · rw [if_pos (Or.inl h1), hinner]
              · rw [if_pos (Or.inr h1), hinner]
              · rw [if_neg ?hno, if_pos h1, hinner]
                case hno =>
                  rw [h1]
                  rintro (hc | hc) <;> simp at hc
          | cons b pre2 =>
              injection hch with hib hch
              subst hib
              have hprei := hpre i (List.mem_cons_self _ _)
              have hpre2 : ∀ c ∈ pre2, annOnPattern f c = false :=
                fun c hc => hpre c (List.mem_cons_of_mem _ hc)
              have hlen2 : pre2.length + 1 + post.length < k := by
                simp only [List.length_cons] at hlen
                omega
              by_cases hia : (f.node i).typ = NType.tsTypeAnn
              · simp only [hia, if_true]
                cases hip : (f.node i).parent with
                | none =>
                    rw [hip, chainFrom_none] at hch
                    exact absurd hch (by simp)
                | some q =>
                    have hq : decide ((f.node q).typ = NType.objectPattern ∨
                        (f.node q).typ = NType.arrayPattern ∨
                        (f.node q).typ = NType.identifier) = false := by
                      unfold annOnPattern at hprei
                      rw [hia, hip] at hprei
                      simpa using hprei
                    have hq2 := decide_eq_false_iff_not.mp hq
                    dsimp only
                    rw [if_neg ?hn1, if_neg ?hn2]
                    case hn1 =>
                      intro hc
                      rcases hc with hc | hc
                      · exact hq2 (Or.inl hc)
                      · exact hq2 (Or.inr (Or.inl hc))
                    case hn2 =>
                      intro hc
                      exact hq2 (Or.inr (Or.inr hc))
                    rw [hip] at hch
                    exact ih (some q) pre2 post hch hpre2 hlen2
              · simp only [hia, if_false]
                exact ih ((f.node i).parent) pre2 post hch hpre2 hlen2

/-- Counterexample to claim C1 as stated: in the file
type Q = number; const f = (x: (y: Q) => void) => 0
the name Q is declared once without type parameters, not exported, and
referenced exactly once, and the single reference lies through nested
type composition inside the annotation (node 8) of x (node 7), a listed
parameter of the declarator-bound arrow (node 6); yet the engine
produces no diagnostic at all, where the claim requires exactly one:
the walk decides at the inner annotation of y first and returns false. -/
theorem claim_C1_counterexample :
    Wf exF1c ∧
    declOccurrences exF1c "Q" = [1] ∧ refOccurrences exF1c "Q" = [12] ∧
    isExported exF1c 1 = false ∧
    (exF1c.node 8).typ = NType.tsTypeAnn ∧ 8 ∈ ancestors exF1c 12 ∧
    (exF1c.node 8).parent = some 7 ∧
    (exF1c.node 7).typ = NType.identifier ∧
    (exF1c.node 7).parent = some 6 ∧
    (exF1c.node 6).typ = NType.arrowFunctionExpression ∧
    7 ∈ (exF1c.node 6).params ∧
    (exF1c.node 4).typ = NType.variableDeclarator ∧
    (exF1c.node 4).init = some 6 ∧
    run exF1c = [] := by
  decide

/-- Claim C1 (amended): a non-generic, non-exported type declaration
(alias or interface) whose name is referenced exactly once, where the
innermost type-annotation ancestor of the single reference whose
annotated node is a destructuring pattern or a plain identifier
annotates a node listed among the parameters of a function declaration,
function expression, or arrow function, produces exactly one diagnostic,
and that diagnostic names the declaration.  References nested inside the
parameter annotation of an inner function type are excluded: there the
walk decides at the inner annotation and nothing is reported. -/
theorem claim_C1_amended (f : File) (nm : String) (d r a p g : Nat)
    (pre post : List Nat) (hw : Wf f)
    (hd : declOccurrences f nm = [d]) (hr : refOccurrences f nm = [r])
    (hex : isExported f d = false)
    (hchain : ancestors f r = pre ++ a :: post)
    (hpre : ∀ b ∈ pre, annOnPattern f b = false)
    (hann : (f.node a).typ = NType.tsTypeAnn)
    (hap : (f.node a).parent = some p)
    (hpk : (f.node p).typ = NType.objectPattern ∨ (f.node p).typ = NType.arrayPattern ∨
           (f.node p).typ = NType.identifier)
    (hpg : (f.node p).parent = some g)
    (hgf : isFunctionKind (f.node g).typ = true)
    (hpmem : p ∈ (f.node g).params) :
    reportsFor (run f) nm = [Report.mk d nm (computeFix f d r)] := by
  have hrmem : r ∈ refOccurrences f nm := by
    rw [hr]
    exact List.mem_singleton.mpr rfl
  unfold refOccurrences at hrmem
  have hrsize : r < f.size := List.mem_range.mp (List.mem_filter.mp hrmem).1
  have hlen : pre.length + 1 + post.length < f.size + 1 := by
    have hle := chainFrom_length_le f hw (f.size + 1) r hrsize
    unfold ancestors at hchain
    rw [hchain] at hle
    simp only [List.length_append, List.length_cons] at hle
    omega
  have hp : isInFunctionParameter f r = true := by
    unfold ancestors at hchain
    exact isInFuncParamFrom_complete f a p g hann hap hpk hpg hgf hpmem
      (f.size + 1) (some r) pre post hchain hpre hlen
  exact run_reportsFor f nm d r hd hr hex hp

/-- Witness for the amended claim C1 at the standard single-use file. -/
theorem claim_C1_amended_witness :
    Wf exF2 ∧ ancestors exF2 9 = [9] ++ 8 :: [7, 6, 4, 3, 0] ∧
    reportsFor (run exF2) "P" = [Report.mk 1 "P" (computeFix exF2 1 9)] :=
  ⟨by decide, by decide,
   claim_C1_amended exF2 "P" 1 9 8 7 6 [9] [7, 6, 4, 3, 0]
     (by decide) (by decide) (by decide) (by decide) (by decide) (by decide)
     (by decide) (by decide) (Or.inr (Or.inr (by decide))) (by decide)
     (by decide) (by decide)⟩

/-- Counterexample to claim C4 as stated: in the file
type Q = number; const f = (x: (y: Q) => void) => 0
the declaration of Q is single-use, not exported, not generic, the
single reference lies inside the annotation (node 8) of the listed arrow
parameter x, nested in further type composition within that annotation —
its immediate parent (node 11) is not that parameter annotation — and
the claim demands a diagnostic without fix edits; yet the engine reports
nothing at all. -/
theorem claim_C4_counterexample :
    Wf exF1c ∧
    declOccurrences exF1c "Q" = [1] ∧ refOccurrences exF1c "Q" = [12] ∧
    isExported exF1c 1 = false ∧
    8 ∈ ancestors exF1c 12 ∧ (exF1c.node 8).typ = NType.tsTypeAnn ∧
    (exF1c.node 8).parent = some 7 ∧ 7 ∈ (exF1c.node 6).params ∧
    isFunctionKind (exF1c.node 6).typ = true ∧
    (exF1c.node 12).parent = some 11 ∧ (11 : Nat) ≠ 8 ∧
    run exF1c = [] := by
  decide

/-- Claim C4 (amended): a declaration that is eligible under the amended
context condition of claim C1 — single use, not exported, not generic,
and the innermost pattern-or-identifier-parented annotation ancestor of
the reference annotates a listed function parameter — whose reference
has an immediate parent other than a type-annotation node, or whose body
text cannot be extracted, is still reported, but the diagnostic carries
no fix edits. -/
theorem claim_C4_amended (f : File) (nm : String) (d r a p g : Nat)
    (pre post : List Nat) (hw : Wf f)
    (hd : declOccurrences f nm = [d]) (hr : refOccurrences f nm = [r])
    (hex : isExported f d = false)
    (hchain : ancestors f r = pre ++ a :: post)
    (hpre : ∀ b ∈ pre, annOnPattern f b = false)
    (hann : (f.node a).typ = NType.tsTypeAnn)
    (hap : (f.node a).parent = some p)
    (hpk : (f.node p).typ = NType.objectPattern ∨ (f.node p).typ = NType.arrayPattern ∨
           (f.node p).typ = NType.identifier)
    (hpg : (f.node p).parent = some g)
    (hgf : isFunctionKind (f.node g).typ = true)
    (hpmem : p ∈ (f.node g).params)
    (hnof : refParentNotAnn f r = true ∨ getTypeBody f d = none) :
    reportsFor (run f) nm = [Report.mk d nm none] := by
  have hrmem : r ∈ refOccurrences f nm := by
    rw [hr]
    exact List.mem_singleton.mpr rfl
  unfold refOccurrences at hrmem
  have hrsize : r < f.size := List.mem_range.mp (List.mem_filter.mp hrmem).1
  have hlen : pre.length + 1 + post.length < f.size + 1 := by
    have hle := chainFrom_length_le f hw (f.size + 1) r hrsize
    unfold ancestors at hchain
    rw [hchain] at hle
    simp only [List.length_append, List.length_cons] at hle
    omega
  have hp : isInFunctionParameter f r = true := by
    unfold ancestors at hchain
    exact isInFuncParamFrom_complete f a p g hann hap hpk hpg hgf hpmem
      (f.size + 1) (some r) pre post hchain hpre hlen
  rw [run_reportsFor f nm d r hd hr hex hp, computeFix_none f d r hnof]

/-- Witness for the amended claim C4: the single use nested inside a
generic wrapper within the parameter annotation is reported without fix
edits. -/
theorem claim_C4_amended_witness :
    Wf exF4 ∧ ancestors exF4 11 = [11, 10, 9] ++ 8 :: [7, 6, 4, 3, 0] ∧
    refParentNotAnn exF4 11 = true ∧
    reportsFor (run exF4) "P" = [Report.mk 1 "P" none] :=
  ⟨by decide, by decide, by decide,
   claim_C4_amended exF4 "P" 1 11 8 7 6 [11, 10, 9] [7, 6, 4, 3, 0]
     (by decide) (by decide) (by decide) (by decide) (by decide) (by decide)
     (by decide) (by decide) (Or.inr (Or.inr (by decide))) (by decide)
     (by decide) (by decide) (Or.inl (by decide))⟩
